import Mathlib

/-!
# FEC engine (docs/modules/numma-loader.js) — shallow embedding and verification

This file embeds the FEC (Fichier des Écritures Comptables) compliance engine
of `numma-loader.js` — the field catalog `FEC_CONFIG`, `validateEntry`,
`validateFECCompliance`, `generateFECFile` and `parseFECFile` — and proves
properties of the embedding.

Modelling conventions:
* JavaScript strings are lists of characters (`JStr`);
* JavaScript numbers produced by `parseFloat` are exact decimal rationals,
  represented as `num / 10 ^ exp` (`JNum`), with `NaN` as `Option.none`;
  `JNum.toRat` interprets them in `ℚ`.  Binary64 rounding is not modelled:
  all amounts in play are exact decimals.  `parseFloat` of non-finite inputs
  (the literal `Infinity`) is modelled as `none` as well;
* `String.prototype.trim` is modelled with `Char.isWhitespace` (the engine
  only meets ASCII whitespace);
* `Array.prototype.sort` is modelled as an insertion sort; the properties
  proved below do not depend on the order of ties, and `localeCompare` /
  the default comparator are modelled as code-unit lexicographic order;
* a JavaScript object used as a string-keyed accumulator is modelled as a
  list of keys in first-insertion order with a per-key fold.
-/

deriving instance DecidableEq for Except

namespace FEC

/-- JS strings, modelled as lists of characters. -/
abbrev JStr := List Char

/-- Coerce a Lean string literal to a `JStr`. -/
def js (s : String) : JStr := s.data

/-- `a || b` for strings: `a` unless it is empty (falsy). -/
def jsOr (a b : JStr) : JStr := if a = [] then b else a

/-- `String.prototype.split` with a single-character separator.
Never returns an empty list, like the JS original. -/
def splitOnChar (sep : Char) : JStr → List JStr
  | [] => [[]]
  | c :: rest =>
    if c = sep then [] :: splitOnChar sep rest
    else
      match splitOnChar sep rest with
      | [] => [[c]]
      | p :: ps => (c :: p) :: ps

/-- `Array.prototype.join` with a separator (JS `[..].join(sep)`). -/
def joinSep (sep : JStr) : List JStr → JStr
  | [] => []
  | [x] => x
  | x :: xs => x ++ sep ++ joinSep sep (xs)

/-- `String.prototype.replace` with single-character pattern and
replacement: replaces the first occurrence only. -/
def replaceFirst (a b : Char) : JStr → JStr
  | [] => []
  | c :: rest => if c = a then b :: rest else c :: replaceFirst a b rest

/-- `value.replace(/\|/g, '')`: strip every pipe character. -/
def stripPipes (s : JStr) : JStr := s.filter (fun c => c ≠ '|')

/-- `String.prototype.trim`. -/
def trim (s : JStr) : JStr :=
  ((s.dropWhile Char.isWhitespace).reverse.dropWhile Char.isWhitespace).reverse

/-- Strip one trailing carriage return (the `\r?` of the line-split regex). -/
def stripCR (l : JStr) : JStr :=
  if l.getLast? = some '\r' then l.dropLast else l

/-- `content.split(/\r?\n/)`: split at each newline, a preceding carriage
return being consumed with it. -/
def splitLinesJS (c : JStr) : List JStr := (splitOnChar '\n' c).map stripCR

/-- JS `<` on strings (code-unit lexicographic comparison). -/
def jsLt : JStr → JStr → Bool
  | [], [] => false
  | [], _ :: _ => true
  | _ :: _, [] => false
  | a :: as, b :: bs => if a < b then true else if b < a then false else jsLt as bs

/-- JS `<=` on strings; also the order realised by `localeCompare` and the
default sort comparator on the strings the engine handles. -/
def jsLe : JStr → JStr → Bool
  | [], _ => true
  | _ :: _, [] => false
  | a :: as, b :: bs => if a < b then true else if b < a then false else jsLe as bs

/-- `jsLe` as a relation, for the sort API. -/
def jsLeP (a b : JStr) : Prop := jsLe a b = true

instance : DecidableRel jsLeP := fun a b => inferInstanceAs (Decidable (jsLe a b = true))

/-! ## Exact decimal numbers (`parseFloat` results) -/

/-- A JS number as produced by `parseFloat` on decimal input: the exact
rational `num / 10 ^ exp`. -/
structure JNum where
  num : Int
  exp : Nat
deriving DecidableEq

/-- Interpretation of a `JNum` in `ℚ`. -/
def JNum.toRat (x : JNum) : ℚ := (x.num : ℚ) / 10 ^ x.exp

/-- Value-level `<` (JS `<` on numbers). -/
def JNum.blt (a b : JNum) : Bool := decide (a.num * 10 ^ b.exp < b.num * 10 ^ a.exp)

/-- Value-level `===` on numbers. -/
def JNum.beq (a b : JNum) : Bool := decide (a.num * 10 ^ b.exp = b.num * 10 ^ a.exp)

/-- Exact addition. -/
def JNum.add (a b : JNum) : JNum :=
  let m := max a.exp b.exp
  ⟨a.num * 10 ^ (m - a.exp) + b.num * 10 ^ (m - b.exp), m⟩

/-- Exact subtraction. -/
def JNum.sub (a b : JNum) : JNum :=
  let m := max a.exp b.exp
  ⟨a.num * 10 ^ (m - a.exp) - b.num * 10 ^ (m - b.exp), m⟩

/-- `Math.abs`. -/
def JNum.abs (a : JNum) : JNum := ⟨(a.num.natAbs : Int), a.exp⟩

/-- Numbers-with-NaN: `none` is `NaN`.  Addition propagates `NaN`. -/
def jsAdd : Option JNum → Option JNum → Option JNum
  | some x, some y => some (x.add y)
  | _, _ => none

/-- Subtraction with `NaN` propagation. -/
def jsSub : Option JNum → Option JNum → Option JNum
  | some x, some y => some (x.sub y)
  | _, _ => none

/-- `Math.abs` with `NaN` propagation. -/
def jsAbs : Option JNum → Option JNum := Option.map JNum.abs

/-- JS `>` on numbers: false whenever either side is `NaN`. -/
def jsGt (a b : Option JNum) : Bool :=
  match a, b with
  | some x, some y => JNum.blt y x
  | _, _ => false

/-- JS `=== 0` on a number: false for `NaN`. -/
def jsIsZero : Option JNum → Bool
  | some x => JNum.beq x ⟨0, 0⟩
  | none => false

/-! ## `parseFloat` -/

/-- The leading digit run of a string and the remainder. -/
def readDigits (s : JStr) : JStr × JStr :=
  (s.takeWhile Char.isDigit, s.dropWhile Char.isDigit)

/-- Numeric value of a digit run. -/
def digitsToNat (ds : JStr) : Nat := ds.foldl (fun a c => 10 * a + (c.toNat - 48)) 0

/-- Consume an optional exponent part (`e`/`E`, optional sign, digits) and
apply it to the mantissa; without a digit after the marker nothing is
consumed, as in `parseFloat`. -/
def readExp (m : JNum) (s : JStr) : JNum :=
  if s.head? = some 'e' ∨ s.head? = some 'E' then
    let r := s.tail
    let p : Bool × JStr :=
      match r with
      | '+' :: t => (true, t)
      | '-' :: t => (false, t)
      | _ => (true, r)
    let ds := (readDigits p.2).1
    if ds = [] then m
    else if p.1 then ⟨m.num * 10 ^ digitsToNat ds, m.exp⟩
    else ⟨m.num, m.exp + digitsToNat ds⟩
  else m

/-- ECMAScript `parseFloat` on decimal notation: leading whitespace and an
optional sign, then the longest decimal-literal prefix; `none` when no
prefix parses (`NaN`). -/
def jsParseFloat (s : JStr) : Option JNum :=
  let s1 := s.dropWhile Char.isWhitespace
  let sp : Bool × JStr :=
    match s1 with
    | '+' :: t => (false, t)
    | '-' :: t => (true, t)
    | _ => (false, s1)
  let signed : JNum → JNum := fun m => if sp.1 then ⟨-m.num, m.exp⟩ else m
  let ip := (readDigits sp.2).1
  let r1 := (readDigits sp.2).2
  match ip, r1 with
  | [], '.' :: r2 =>
    let fp := (readDigits r2).1
    if fp = [] then none
    else some (signed (readExp ⟨(digitsToNat fp : Int), fp.length⟩ ((readDigits r2).2)))
  | [], _ => none
  | _ :: _, '.' :: r2 =>
    let fp := (readDigits r2).1
    some (signed (readExp
      ⟨(digitsToNat ip * 10 ^ fp.length + digitsToNat fp : Int), fp.length⟩
      ((readDigits r2).2)))
  | _ :: _, _ => some (signed (readExp ⟨(digitsToNat ip : Int), 0⟩ r1))

/-! ## `toFixed(2)` and number-to-string conversion -/

/-- Decimal digits of a natural number. -/
def natToChars (n : Nat) : JStr := Nat.toDigits 10 n

/-- Two-digit zero-padded rendering of `n < 100`. -/
def pad2 (n : Nat) : JStr := if n < 10 then '0' :: natToChars n else natToChars n

/-- `Number.prototype.toFixed(2)`: sign of the value, then the integer
nearest `|x| * 100` (ties toward the larger integer), written with two
fractional digits. -/
def JNum.toFixed2 (x : JNum) : JStr :=
  let sgn : JStr := if x.num < 0 then ['-'] else []
  let m : Nat := x.num.natAbs * 100
  let d : Nat := 10 ^ x.exp
  let n : Nat := (2 * m + d) / (2 * d)
  sgn ++ natToChars (n / 100) ++ '.' :: pad2 (n % 100)

/-- `toFixed(2)` lifted to numbers-with-NaN: `NaN.toFixed(2)` is `"NaN"`. -/
def jsToFixed2 : Option JNum → JStr
  | none => js "NaN"
  | some x => x.toFixed2

/-- Shortest-decimal `Number` to string conversion (template-literal
interpolation of an exact decimal value): trailing fractional zeros are
dropped. -/
def reduceTens (m : Nat) : Nat → Nat × Nat
  | 0 => (m, 0)
  | e + 1 => if m % 10 = 0 then reduceTens (m / 10) e else (m, e + 1)

/-- Render `m / 10 ^ e` (already free of trailing fractional zeros). -/
def renderDecimal (m : Nat) (e : Nat) : JStr :=
  if e = 0 then natToChars m
  else
    natToChars (m / 10 ^ e) ++ '.' ::
      (List.replicate (e - (natToChars (m % 10 ^ e)).length) '0' ++ natToChars (m % 10 ^ e))

/-- String interpolation of a `JNum` (JS default number-to-string). -/
def JNum.toStr (x : JNum) : JStr :=
  let sgn : JStr := if x.num < 0 then ['-'] else []
  let p := reduceTens x.num.natAbs x.exp
  sgn ++ renderDecimal p.1 p.2

/-- String interpolation of a number-with-NaN. -/
def jsNumToStr : Option JNum → JStr
  | none => js "NaN"
  | some x => x.toStr

/-! ## Data model: the 18-field FEC record -/

/-- One FEC entry: the 18 fields of `FEC_CONFIG.FIELDS`, all strings (the
parser stores trimmed strings; the serializer accepts them back). -/
@[ext]
structure Entry where
  JournalCode : JStr
  JournalLib : JStr
  EcritureNum : JStr
  EcritureDate : JStr
  CompteNum : JStr
  CompteLib : JStr
  CompAuxNum : JStr
  CompAuxLib : JStr
  PieceRef : JStr
  PieceDate : JStr
  EcritureLib : JStr
  Debit : JStr
  Credit : JStr
  EcritureLet : JStr
  DateLet : JStr
  ValidDate : JStr
  Montantdevise : JStr
  Idevise : JStr
deriving DecidableEq

/-- Field names, for positional access in catalog order. -/
inductive Field
  | JournalCode | JournalLib | EcritureNum | EcritureDate | CompteNum | CompteLib
  | CompAuxNum | CompAuxLib | PieceRef | PieceDate | EcritureLib | Debit | Credit
  | EcritureLet | DateLet | ValidDate | Montantdevise | Idevise
deriving DecidableEq

/-- `FEC_CONFIG.FIELDS`: the fixed field order of the wire format. -/
def FEC_FIELDS : List Field :=
  [.JournalCode, .JournalLib, .EcritureNum, .EcritureDate, .CompteNum, .CompteLib,
   .CompAuxNum, .CompAuxLib, .PieceRef, .PieceDate, .EcritureLib, .Debit, .Credit,
   .EcritureLet, .DateLet, .ValidDate, .Montantdevise, .Idevise]

/-- The wire name of a field (the header tokens). -/
def fieldName : Field → JStr
  | .JournalCode => js "JournalCode"
  | .JournalLib => js "JournalLib"
  | .EcritureNum => js "EcritureNum"
  | .EcritureDate => js "EcritureDate"
  | .CompteNum => js "CompteNum"
  | .CompteLib => js "CompteLib"
  | .CompAuxNum => js "CompAuxNum"
  | .CompAuxLib => js "CompAuxLib"
  | .PieceRef => js "PieceRef"
  | .PieceDate => js "PieceDate"
  | .EcritureLib => js "EcritureLib"
  | .Debit => js "Debit"
  | .Credit => js "Credit"
  | .EcritureLet => js "EcritureLet"
  | .DateLet => js "DateLet"
  | .ValidDate => js "ValidDate"
  | .Montantdevise => js "Montantdevise"
  | .Idevise => js "Idevise"

/-- `entry[field]`. -/
def Entry.get (e : Entry) : Field → JStr
  | .JournalCode => e.JournalCode
  | .JournalLib => e.JournalLib
  | .EcritureNum => e.EcritureNum
  | .EcritureDate => e.EcritureDate
  | .CompteNum => e.CompteNum
  | .CompteLib => e.CompteLib
  | .CompAuxNum => e.CompAuxNum
  | .CompAuxLib => e.CompAuxLib
  | .PieceRef => e.PieceRef
  | .PieceDate => e.PieceDate
  | .EcritureLib => e.EcritureLib
  | .Debit => e.Debit
  | .Credit => e.Credit
  | .EcritureLet => e.EcritureLet
  | .DateLet => e.DateLet
  | .ValidDate => e.ValidDate
  | .Montantdevise => e.Montantdevise
  | .Idevise => e.Idevise

/-- The three monetary fields singled out by parser and serializer. -/
def isAmountField (f : Field) : Bool :=
  match f with
  | .Debit => true
  | .Credit => true
  | .Montantdevise => true
  | _ => false

/-! ## `FEC_CONFIG.VALIDATION` and the code tables -/

/-- `DATE_FORMAT: /^\d{8}$/`. -/
def dateFormatOK (s : JStr) : Bool := s.length = 8 && s.all Char.isDigit

/-- `ACCOUNT_MIN_LENGTH`. -/
def ACCOUNT_MIN_LENGTH : Nat := 3

/-- `ACCOUNT_MAX_LENGTH`. -/
def ACCOUNT_MAX_LENGTH : Nat := 20

/-- `MAX_AMOUNT: 9999999999.99`. -/
def MAX_AMOUNT : JNum := ⟨999999999999, 2⟩

/-- `BALANCE_TOLERANCE: 0.01`. -/
def BALANCE_TOLERANCE : JNum := ⟨1, 2⟩

/-- The key set of `PCG_CLASSES` (the French labels attached to each class
are never read by the engine, only key membership is). -/
def PCG_CLASSES : List Char := ['1', '2', '3', '4', '5', '6', '7', '8']

/-- The key set of `JOURNAL_CODES` (labels again unread). -/
def JOURNAL_CODES : List JStr :=
  [js "AC", js "VE", js "BQ", js "CA", js "OD", js "AN"]

/-! ## `validateEntry` -/

/-- The required-field list of `validateEntry`. -/
def requiredFields : List Field :=
  [.JournalCode, .EcritureNum, .EcritureDate, .CompteNum, .CompteLib, .PieceRef, .EcritureLib]

/-- `parseFloat(entry.Debit || 0)`. -/
def entryDebit (e : Entry) : Option JNum := jsParseFloat (jsOr e.Debit (js "0"))

/-- `parseFloat(entry.Credit || 0)`. -/
def entryCredit (e : Entry) : Option JNum := jsParseFloat (jsOr e.Credit (js "0"))

/-- `validateEntry`, returning its error-message list (the function's
`valid` flag is `errors.length === 0`). -/
def validateEntry (e : Entry) : List JStr :=
  let reqErrs := requiredFields.filterMap fun f =>
    if trim (e.get f) = [] then some (js "Champ requis manquant: " ++ fieldName f)
    else none
  let dateErrs :=
    if e.EcritureDate ≠ [] ∧ dateFormatOK e.EcritureDate = false then
      [js "Format de date invalide: " ++ e.EcritureDate ++ js " (attendu: YYYYMMDD)"]
    else []
  let acctErrs :=
    if e.CompteNum ≠ [] then
      (if e.CompteNum.length < ACCOUNT_MIN_LENGTH ∨ ACCOUNT_MAX_LENGTH < e.CompteNum.length then
        [js "Numéro de compte invalide: " ++ e.CompteNum]
      else []) ++
      (if e.CompteNum.headD ' ' ∈ PCG_CLASSES then []
       else [js "Classe de compte invalide: " ++ [e.CompteNum.headD ' ']])
    else []
  let debit := entryDebit e
  let credit := entryCredit e
  let nanErrs :=
    (if debit = none then [js "Montant débit invalide: " ++ e.Debit] else []) ++
    (if credit = none then [js "Montant crédit invalide: " ++ e.Credit] else [])
  let maxErrs :=
    (if jsGt debit (some MAX_AMOUNT) then [js "Débit trop élevé: " ++ jsNumToStr debit] else []) ++
    (if jsGt credit (some MAX_AMOUNT) then [js "Crédit trop élevé: " ++ jsNumToStr credit] else [])
  let zeroErrs :=
    if jsIsZero debit ∧ jsIsZero credit then
      [js "Au moins un montant (débit ou crédit) doit être non nul"]
    else []
  let bothErrs :=
    if jsGt debit (some ⟨0, 0⟩) ∧ jsGt credit (some ⟨0, 0⟩) then
      [js "Débit et crédit ne peuvent pas être tous deux renseignés"]
    else []
  reqErrs ++ dateErrs ++ acctErrs ++ nanErrs ++ maxErrs ++ zeroErrs ++ bothErrs

/-! ## `validateFECCompliance` -/

/-- A validation issue: `type`, `message`, and the optional `entry` tag. -/
structure Issue where
  type : JStr
  message : JStr
  entry : Option JStr := none
deriving DecidableEq

/-- The result record `{ valid, errors, warnings }`. -/
structure FECResult where
  valid : Bool
  errors : List Issue
  warnings : List Issue
deriving DecidableEq

/-- `entry.EcritureNum || 'Ligne ' + (index + 1)`. -/
def entryTag (i : Nat) (e : Entry) : JStr :=
  jsOr e.EcritureNum (js "Ligne " ++ natToChars (i + 1))

/-- Pass 1: per-entry validation, each message becoming an
`ENTRY_INVALID` issue tagged with the offending entry. -/
def entryIssues (entries : List Entry) : List Issue :=
  entries.enum.flatMap fun p =>
    (validateEntry p.2).map fun msg =>
      ⟨js "ENTRY_INVALID", msg, some (entryTag p.1 p.2)⟩

/-- The distinct `PieceRef` keys in first-insertion order (the iteration
order of the accumulator object over these string keys). -/
def pieceRefs (entries : List Entry) : List JStr :=
  (entries.map (·.PieceRef)).foldl (fun acc r => if r ∈ acc then acc else acc ++ [r]) []

/-- Total debit accumulated for one piece. -/
def pieceDebit (entries : List Entry) (ref : JStr) : Option JNum :=
  ((entries.filter fun e => e.PieceRef = ref).map entryDebit).foldl jsAdd (some ⟨0, 0⟩)

/-- Total credit accumulated for one piece. -/
def pieceCredit (entries : List Entry) (ref : JStr) : Option JNum :=
  ((entries.filter fun e => e.PieceRef = ref).map entryCredit).foldl jsAdd (some ⟨0, 0⟩)

/-- Pass 2: per-piece balance verification. -/
def balanceIssues (entries : List Entry) : List Issue :=
  (pieceRefs entries).filterMap fun ref =>
    let d := pieceDebit entries ref
    let c := pieceCredit entries ref
    if jsGt (jsAbs (jsSub d c)) (some BALANCE_TOLERANCE) then
      some ⟨js "BALANCE_ERROR",
        js "Pièce " ++ ref ++ js " déséquilibrée: Débit " ++ jsToFixed2 d ++
          js " ≠ Crédit " ++ jsToFixed2 c,
        some ref⟩
    else none

/-- Order relation used to sort `(date, num)` pairs by date. -/
def dateLeP (p q : JStr × JStr) : Prop := jsLe p.1 q.1 = true

instance : DecidableRel dateLeP := fun p q => inferInstanceAs (Decidable (jsLe p.1 q.1 = true))

/-- One step of the chronology scan: warn when the current date is below
the previous one. -/
def chronStep (prev cur : JStr × JStr) : List Issue :=
  if jsLt cur.1 prev.1 then
    [⟨js "CHRONOLOGY_WARNING",
      js "Ordre chronologique non respecté: " ++ cur.2 ++ js " (" ++ cur.1 ++
        js ") après " ++ prev.2 ++ js " (" ++ prev.1 ++ js ")", none⟩]
  else []

/-- The scan of pass 3, carrying the previous item (the `prevDate` variable
together with the `dates[index-1]` access; index `0` never warns). -/
def chronScan : (JStr × JStr) → List (JStr × JStr) → List Issue
  | _, [] => []
  | prev, cur :: rest => chronStep prev cur ++ chronScan cur rest

/-- Pass 3: the chronological check — performed on a copy of the
`(EcritureDate, EcritureNum)` pairs sorted by date. -/
def chronIssues (entries : List Entry) : List Issue :=
  match List.insertionSort dateLeP (entries.map fun e => (e.EcritureDate, e.EcritureNum)) with
  | [] => []
  | p :: rest => chronScan p rest

/-- The adjacent-duplicate scan of pass 4. -/
def dupScan : List JStr → List Issue
  | a :: b :: rest =>
    (if b = a then [⟨js "DUPLICATE_NUM", js "Numéro d\x27écriture dupliqué: " ++ b, none⟩]
     else []) ++ dupScan (b :: rest)
  | _ => []

/-- Pass 4: duplicate `EcritureNum` detection over the sorted number list. -/
def dupIssues (entries : List Entry) : List Issue :=
  dupScan (List.insertionSort jsLeP (entries.map (·.EcritureNum)))

/-- Pass 5: VAT accounts (`445*`) must carry a nonzero amount — the amount
being `parseFloat(entry.Debit || entry.Credit || 0)`.  (The JS guard
`entry.CompteNum &&` is subsumed: the empty string has no `445` prefix.) -/
def vatIssues (entries : List Entry) : List Issue :=
  entries.filterMap fun e =>
    if (js "445").isPrefixOf e.CompteNum then
      if jsIsZero (jsParseFloat (jsOr (jsOr e.Debit e.Credit) (js "0"))) then
        some ⟨js "VAT_WARNING",
          js "Compte TVA " ++ e.CompteNum ++ js " avec montant nul",
          some e.EcritureNum⟩
      else none
    else none

/-- Pass 6: unknown journal codes. -/
def journalIssues (entries : List Entry) : List Issue :=
  entries.filterMap fun e =>
    if e.JournalCode ≠ [] ∧ e.JournalCode ∉ JOURNAL_CODES then
      some ⟨js "UNKNOWN_JOURNAL",
        js "Code journal non standard: " ++ e.JournalCode,
        some e.EcritureNum⟩
    else none

/-- `validateFECCompliance`. -/
def validateFECCompliance (entries : List Entry) : FECResult :=
  if entries = [] then
    ⟨false, [⟨js "EMPTY_FEC", js "Aucune écriture à valider", none⟩], []⟩
  else
    let errors := entryIssues entries ++ balanceIssues entries ++ dupIssues entries
    let warnings := chronIssues entries ++ vatIssues entries ++ journalIssues entries
    ⟨errors.isEmpty, errors, warnings⟩

/-! ## `generateFECFile` -/

/-- One serialized field: monetary fields are re-rendered to two decimals
with a comma separator, then every field is stripped of pipes. -/
def serializeField (e : Entry) (f : Field) : JStr :=
  let value := e.get f
  let value :=
    if isAmountField f then replaceFirst '.' ',' (jsToFixed2 (jsParseFloat (jsOr value (js "0"))))
    else value
  stripPipes value

/-- One serialized data line. -/
def fecLine (e : Entry) : JStr := joinSep ['|'] (FEC_FIELDS.map (serializeField e))

/-- The serialized header line. -/
def fecHeader : JStr := joinSep ['|'] (FEC_FIELDS.map fieldName)

/-- `generateFECFile`: header and data lines joined with CRLF; throws on an
empty entry list. -/
def generateFECFile (entries : List Entry) : Except JStr JStr :=
  if entries = [] then .error (js "Aucune écriture à exporter")
  else .ok (joinSep (js "\r\n") (fecHeader :: entries.map fecLine))

/-! ## `parseFECFile` -/

/-- Field-value conversion on parse: trim, and comma-to-dot on the three
monetary fields (first comma only, as `replace` with a string pattern). -/
def convVal (f : Field) (v : JStr) : JStr :=
  let t := trim v
  if isAmountField f then replaceFirst ',' '.' t else t

/-- Build an entry from the 18 split values of one line, in catalog order. -/
def entryFromValues (vs : List JStr) : Entry where
  JournalCode := convVal .JournalCode (vs.getD 0 [])
  JournalLib := convVal .JournalLib (vs.getD 1 [])
  EcritureNum := convVal .EcritureNum (vs.getD 2 [])
  EcritureDate := convVal .EcritureDate (vs.getD 3 [])
  CompteNum := convVal .CompteNum (vs.getD 4 [])
  CompteLib := convVal .CompteLib (vs.getD 5 [])
  CompAuxNum := convVal .CompAuxNum (vs.getD 6 [])
  CompAuxLib := convVal .CompAuxLib (vs.getD 7 [])
  PieceRef := convVal .PieceRef (vs.getD 8 [])
  PieceDate := convVal .PieceDate (vs.getD 9 [])
  EcritureLib := convVal .EcritureLib (vs.getD 10 [])
  Debit := convVal .Debit (vs.getD 11 [])
  Credit := convVal .Credit (vs.getD 12 [])
  EcritureLet := convVal .EcritureLet (vs.getD 13 [])
  DateLet := convVal .DateLet (vs.getD 14 [])
  ValidDate := convVal .ValidDate (vs.getD 15 [])
  Montantdevise := convVal .Montantdevise (vs.getD 16 [])
  Idevise := convVal .Idevise (vs.getD 17 [])

/-- The non-blank lines of the input. -/
def fecLines (content : JStr) : List JStr :=
  (splitLinesJS content).filter fun l => trim l ≠ []

/-- `parseFECFile`: empty input, fewer than two non-blank lines, and a
header without exactly 18 columns abort with an error; a data line whose
column count is not 18 is skipped. -/
def parseFECFile (content : JStr) : Except JStr (List Entry) :=
  if trim content = [] then .error (js "Fichier FEC vide")
  else
    let lines := fecLines content
    if lines.length < 2 then .error (js "Fichier FEC invalide: moins de 2 lignes")
    else
      let header := splitOnChar '|' (lines.headD [])
      if header.length ≠ FEC_FIELDS.length then
        .error (js "Format FEC invalide: " ++ natToChars header.length ++
          js " colonnes au lieu de " ++ natToChars FEC_FIELDS.length)
      else
        .ok ((lines.drop 1).filterMap fun l =>
          let values := splitOnChar '|' l
          if values.length = FEC_FIELDS.length then some (entryFromValues values) else none)

/-! ## Concrete ledgers used as test inputs -/

/-- A well-formed sales entry: credit `1000.00` on account `707000`,
piece `F001`. -/
def creditEntry : Entry where
  JournalCode := js "VE"
  JournalLib := js "Ventes"
  EcritureNum := js "1"
  EcritureDate := js "20240115"
  CompteNum := js "707000"
  CompteLib := js "Ventes"
  CompAuxNum := []
  CompAuxLib := []
  PieceRef := js "F001"
  PieceDate := js "20240115"
  EcritureLib := js "Vente marchandise"
  Debit := js "0.00"
  Credit := js "1000.00"
  EcritureLet := []
  DateLet := []
  ValidDate := js "20240116"
  Montantdevise := js "0.00"
  Idevise := []

/-- The matching receivable entry: debit `1000.00` on account `411000`,
same piece `F001`. -/
def debitEntry : Entry where
  JournalCode := js "VE"
  JournalLib := js "Ventes"
  EcritureNum := js "2"
  EcritureDate := js "20240115"
  CompteNum := js "411000"
  CompteLib := js "Clients"
  CompAuxNum := []
  CompAuxLib := []
  PieceRef := js "F001"
  PieceDate := js "20240115"
  EcritureLib := js "Vente marchandise"
  Debit := js "1000.00"
  Credit := js "0.00"
  EcritureLet := []
  DateLet := []
  ValidDate := js "20240116"
  Montantdevise := js "0.00"
  Idevise := []

/-- A later-dated entry placed first in the decreasing-date ledger. -/
def chronLate : Entry :=
  { creditEntry with EcritureNum := js "1", EcritureDate := js "20240202" }

/-- An earlier-dated entry placed second in the decreasing-date ledger. -/
def chronEarly : Entry :=
  { debitEntry with EcritureNum := js "2", EcritureDate := js "20240101" }

/-- A VAT-account entry with an explicit `"0.00"` debit and a nonzero
credit. -/
def vatMaskedEntry : Entry :=
  { creditEntry with
    EcritureNum := js "3"
    CompteNum := js "44566123"
    Debit := js "0.00"
    Credit := js "500.00" }

/-- An entry with a non-numeric debit and an empty foreign amount. -/
def nanEntry : Entry :=
  { creditEntry with EcritureNum := js "9", Debit := js "abc", Montantdevise := [] }

/-- An entry with a negative debit. -/
def negDebitEntry : Entry :=
  { creditEntry with
    EcritureNum := js "1"
    CompteNum := js "607000"
    Debit := js "-5.00"
    Credit := js "0.00" }

/-- An entry with a negative credit, balancing `negDebitEntry`. -/
def negCreditEntry : Entry :=
  { creditEntry with
    EcritureNum := js "2"
    Debit := js "0.00"
    Credit := js "-5.00" }

/-- An entry with both amounts zero. -/
def bothZeroEntry : Entry :=
  { creditEntry with
    EcritureNum := js "7"
    Debit := js "0.00"
    Credit := js "0.00" }

/-- An entry with an empty journal label and an empty document date. -/
def noLabelEntry : Entry :=
  { creditEntry with JournalLib := [], PieceDate := [] }

/-- An entry with an empty document reference. -/
def missingRefEntry : Entry :=
  { creditEntry with PieceRef := [] }

/-- A second entry sharing `EcritureNum = "1"` with `creditEntry`. -/
def dupNumEntry : Entry :=
  { debitEntry with EcritureNum := js "1" }

/-- A raw file whose second data line has only 17 columns: one 18-column
header, one valid 18-column data line, one short line. -/
def skipFile : JStr :=
  js "h|h|h|h|h|h|h|h|h|h|h|h|h|h|h|h|h|h\r\nVE|Ventes|1|20240115|707000|Ventes|||F001|20240115|Vente marchandise|0,00|1000,00|||20240116|0,00|\r\nVE|Ventes|2|20240115|707000|Ventes|||F001|20240115|Vente marchandise|0,00|1000,00|||20240116|0,00"

/-! ## Well-formedness of serializable entries -/

/-- Field content free of the delimiter and of line breaks. -/
def cleanStr (v : JStr) : Bool := v.all fun c => c != '|' && c != '\n' && c != '\r'

/-- Field content without whitespace characters. -/
def noWS (v : JStr) : Bool := v.all fun c => !c.isWhitespace

/-- An amount field in canonical serialized form: it parses as a number
and re-rendering that number with `toFixed(2)` returns it unchanged. -/
def canonicalAmount (v : JStr) : Bool :=
  match jsParseFloat v with
  | some q => JNum.toFixed2 q = v
  | none => false

/-- What a field value must satisfy for lossless round-tripping: no
delimiter or line break; moreover a monetary field is a canonical
comma-free, whitespace-free two-decimal numeral, and any other field is
trim-stable. -/
def WFField (f : Field) (v : JStr) : Prop :=
  cleanStr v = true ∧
  ((isAmountField f = true ∧ noWS v = true ∧ ',' ∉ v ∧ canonicalAmount v = true) ∨
   (isAmountField f = false ∧ trim v = v))

/-- An entry all of whose 18 fields are well-formed. -/
def WellFormedEntry (e : Entry) : Prop := ∀ f ∈ FEC_FIELDS, WFField f (e.get f)

instance (f : Field) (v : JStr) : Decidable (WFField f v) := by
  unfold WFField
  infer_instance

instance (e : Entry) : Decidable (WellFormedEntry e) := by
  unfold WellFormedEntry
  infer_instance

/-! ## Specification-side helpers -/

/-- The values at adjacent duplicate positions of a list (one per
duplicate occurrence). -/
def adjDups : List JStr → List JStr
  | a :: b :: rest => (if b = a then [b] else []) ++ adjDups (b :: rest)
  | _ => []

/-- The duplicate-number issue reported for value `v`. -/
def dupIssue (v : JStr) : Issue :=
  ⟨js "DUPLICATE_NUM", js "Numéro d\x27écriture dupliqué: " ++ v, none⟩

/-- Number of occurrences of a string value in a list. -/
def countOcc (v : JStr) (l : List JStr) : Nat := (l.filter fun x => x = v).length

/-- The `ℚ` value of a parsed amount, `NaN` reading as `0` (used only
under no-`NaN` hypotheses). -/
def amountRat (o : Option JNum) : ℚ := (o.map JNum.toRat).getD 0

/-- The exact total debit of a piece, in `ℚ`. -/
def pieceDebitRat (entries : List Entry) (ref : JStr) : ℚ :=
  ((entries.filter fun e => e.PieceRef = ref).map fun e => amountRat (entryDebit e)).sum

/-- The exact total credit of a piece, in `ℚ`. -/
def pieceCreditRat (entries : List Entry) (ref : JStr) : ℚ :=
  ((entries.filter fun e => e.PieceRef = ref).map fun e => amountRat (entryCredit e)).sum

/-- Number of occurrences of an issue in an issue list. -/
def countIssueOcc (i : Issue) (l : List Issue) : Nat := (l.filter fun x => x = i).length

/-! ## Order lemmas for the string comparisons -/

theorem jsLe_total (a b : JStr) : jsLe a b = true ∨ jsLe b a = true := by
  induction a generalizing b with
  | nil => left; rfl
  | cons x xs ih =>
    cases b with
    | nil => right; rfl
    | cons y ys =>
      rcases lt_trichotomy x y with h | h | h
      · left; simp [jsLe, h]
      · subst h
        rcases ih ys with h2 | h2
        · left; simp [jsLe, lt_irrefl, h2]
        · right; simp [jsLe, lt_irrefl, h2]
      · right; simp [jsLe, h]

theorem jsLe_trans {a b c : JStr} (h1 : jsLe a b = true) (h2 : jsLe b c = true) :
    jsLe a c = true := by
  induction a generalizing b c with
  | nil => rfl
  | cons x xs ih =>
    cases b with
    | nil => simp [jsLe] at h1
    | cons y ys =>
      cases c with
      | nil => simp [jsLe] at h2
      | cons z zs =>
        simp only [jsLe] at h1 h2 ⊢
        rcases lt_trichotomy x y with hxy | hxy | hxy
        · rcases lt_trichotomy y z with hyz | hyz | hyz
          · simp [lt_trans hxy hyz]
          · subst hyz; simp [hxy]
          · simp [hxy, not_lt_of_gt hxy] at h1
            rcases lt_trichotomy x z with hxz | hxz | hxz
            · simp [hxz]
            · subst hxz; simp [hyz, not_lt_of_gt hyz] at h2
            · simp [hyz, not_lt_of_gt hyz] at h2
        · subst hxy
          simp [lt_irrefl] at h1
          rcases lt_trichotomy x z with hxz | hxz | hxz
          · simp [hxz]
          · subst hxz
            simp [lt_irrefl] at h2 ⊢
            exact ih h1 h2
          · simp [hxz, not_lt_of_gt hxz] at h2
        · simp [hxy, not_lt_of_gt hxy] at h1

theorem jsLe_antisymm {a b : JStr} (h1 : jsLe a b = true) (h2 : jsLe b a = true) :
    a = b := by
  induction a generalizing b with
  | nil =>
    cases b with
    | nil => rfl
    | cons y ys => simp [jsLe] at h2
  | cons x xs ih =>
    cases b with
    | nil => simp [jsLe] at h1
    | cons y ys =>
      simp only [jsLe] at h1 h2
      rcases lt_trichotomy x y with hxy | hxy | hxy
      · simp [hxy, not_lt_of_gt hxy] at h2
      · subst hxy
        simp only [lt_irrefl, if_false] at h1 h2
        rw [ih h1 h2]
      · simp [hxy, not_lt_of_gt hxy] at h1

theorem jsLt_eq_false_of_jsLe {a b : JStr} (h : jsLe a b = true) :
    jsLt b a = false := by
  induction a generalizing b with
  | nil =>
    cases b with
    | nil => rfl
    | cons y ys => rfl
  | cons x xs ih =>
    cases b with
    | nil => simp [jsLe] at h
    | cons y ys =>
      simp only [jsLe] at h
      simp only [jsLt]
      rcases lt_trichotomy x y with hxy | hxy | hxy
      · simp [hxy, not_lt_of_gt hxy]
      · subst hxy
        simp only [lt_irrefl, if_false] at h ⊢
        exact ih h
      · simp [hxy, not_lt_of_gt hxy] at h

instance : IsTotal JStr jsLeP := ⟨jsLe_total⟩

instance : IsTrans JStr jsLeP := ⟨fun _ _ _ => jsLe_trans⟩

instance : IsTotal (JStr × JStr) dateLeP := ⟨fun p q => jsLe_total p.1 q.1⟩

instance : IsTrans (JStr × JStr) dateLeP := ⟨fun _ _ _ => jsLe_trans⟩

/-! ## The chronology pass is dead code -/

theorem chronScan_sorted_eq_nil {p : JStr × JStr} {l : List (JStr × JStr)}
    (h : List.Sorted dateLeP (p :: l)) : chronScan p l = [] := by
  induction l generalizing p with
  | nil => rfl
  | cons q r ih =>
    rw [List.sorted_cons] at h
    have hpq : jsLe p.1 q.1 = true := h.1 q (by simp)
    have : chronStep p q = [] := by
      unfold chronStep
      rw [jsLt_eq_false_of_jsLe hpq]
      rfl
    simp only [chronScan, this, List.nil_append]
    exact ih h.2

theorem chronIssues_eq_nil (entries : List Entry) : chronIssues entries = [] := by
  unfold chronIssues
  have hs := List.sorted_insertionSort dateLeP
    (entries.map fun e => (e.EcritureDate, e.EcritureNum))
  cases hm : List.insertionSort dateLeP (entries.map fun e => (e.EcritureDate, e.EcritureNum)) with
  | nil => rfl
  | cons p rest =>
    rw [hm] at hs
    exact chronScan_sorted_eq_nil hs

/-! ## Issue types produced by each pass -/

theorem entryIssues_types {i : Issue} (entries : List Entry)
    (h : i ∈ entryIssues entries) : i.type = js "ENTRY_INVALID" := by
  unfold entryIssues at h
  rw [List.mem_flatMap] at h
  obtain ⟨p, _, hi⟩ := h
  rw [List.mem_map] at hi
  obtain ⟨msg, _, rfl⟩ := hi
  rfl

theorem balanceIssues_types {i : Issue} (entries : List Entry)
    (h : i ∈ balanceIssues entries) : i.type = js "BALANCE_ERROR" := by
  unfold balanceIssues at h
  rw [List.mem_filterMap] at h
  obtain ⟨ref, _, hi⟩ := h
  dsimp only at hi
  split at hi
  · cases hi; rfl
  · cases hi

theorem dupScan_types {i : Issue} (l : List JStr)
    (h : i ∈ dupScan l) : i.type = js "DUPLICATE_NUM" := by
  induction l with
  | nil => cases h
  | cons a r ih =>
    cases r with
    | nil => cases h
    | cons b t =>
      simp only [dupScan, List.mem_append] at h
      rcases h with h | h
      · split at h
        · rcases List.mem_singleton.mp h with rfl
          rfl
        · cases h
      · exact ih h

theorem vatIssues_types {i : Issue} (entries : List Entry)
    (h : i ∈ vatIssues entries) : i.type = js "VAT_WARNING" := by
  unfold vatIssues at h
  rw [List.mem_filterMap] at h
  obtain ⟨e, _, hi⟩ := h
  split at hi
  · split at hi
    · cases hi; rfl
    · cases hi
  · cases hi

theorem journalIssues_types {i : Issue} (entries : List Entry)
    (h : i ∈ journalIssues entries) : i.type = js "UNKNOWN_JOURNAL" := by
  unfold journalIssues at h
  rw [List.mem_filterMap] at h
  obtain ⟨e, _, hi⟩ := h
  split at hi
  · cases hi; rfl
  · cases hi

/-- `validateFECCompliance` on a non-empty ledger, unfolded. -/
theorem validate_eq_of_ne_nil {entries : List Entry} (h : entries ≠ []) :
    validateFECCompliance entries =
      ⟨(entryIssues entries ++ balanceIssues entries ++ dupIssues entries).isEmpty,
       entryIssues entries ++ balanceIssues entries ++ dupIssues entries,
       chronIssues entries ++ vatIssues entries ++ journalIssues entries⟩ := by
  unfold validateFECCompliance
  rw [if_neg h]

/-- Filter an issue list by a type none of its members carries. -/
theorem filter_type_eq_nil {t : JStr} {l : List Issue}
    (h : ∀ i ∈ l, i.type ≠ t) : l.filter (fun i => i.type = t) = [] := by
  rw [List.filter_eq_nil_iff]
  intro a ha
  simpa using h a ha

/-! ## Bridges between the executable number model and `ℚ` -/

theorem pow10_pos (e : Nat) : (0:ℚ) < 10 ^ e := by positivity

theorem JNum.beq_iff {x y : JNum} : JNum.beq x y = true ↔ x.toRat = y.toRat := by
  unfold JNum.beq JNum.toRat
  rw [decide_eq_true_eq, div_eq_div_iff (pow10_pos x.exp).ne' (pow10_pos y.exp).ne']
  constructor
  · intro h; exact_mod_cast h
  · intro h; exact_mod_cast h

theorem JNum.blt_iff {x y : JNum} : JNum.blt x y = true ↔ x.toRat < y.toRat := by
  unfold JNum.blt JNum.toRat
  rw [decide_eq_true_eq, div_lt_div_iff₀ (pow10_pos x.exp) (pow10_pos y.exp)]
  constructor
  · intro h; exact_mod_cast h
  · intro h; exact_mod_cast h

theorem JNum.toRat_zero : (⟨0, 0⟩ : JNum).toRat = 0 := by
  unfold JNum.toRat
  norm_num

theorem jsGt_some_iff {x y : JNum} : jsGt (some x) (some y) = true ↔ y.toRat < x.toRat :=
  JNum.blt_iff

theorem jsIsZero_iff {o : Option JNum} :
    jsIsZero o = true ↔ o.map JNum.toRat = some 0 := by
  cases o with
  | none => simp [jsIsZero]
  | some x =>
    rw [show jsIsZero (some x) = JNum.beq x ⟨0, 0⟩ from rfl, JNum.beq_iff, JNum.toRat_zero]
    simp

theorem qshift (n : ℚ) {e m : Nat} (h : e ≤ m) : n * 10 ^ (m - e) / 10 ^ m = n / 10 ^ e := by
  have hm : (10:ℚ) ^ m = 10 ^ (m - e) * 10 ^ e := by
    rw [← pow_add]
    congr 1
    omega
  rw [hm, mul_comm n, mul_div_mul_left _ _ (pow10_pos (m - e)).ne']

theorem JNum.toRat_add (a b : JNum) : (a.add b).toRat = a.toRat + b.toRat := by
  unfold JNum.add JNum.toRat
  dsimp only
  push_cast
  rw [add_div, qshift _ (le_max_left a.exp b.exp), qshift _ (le_max_right a.exp b.exp)]

theorem JNum.toRat_sub (a b : JNum) : (a.sub b).toRat = a.toRat - b.toRat := by
  unfold JNum.sub JNum.toRat
  dsimp only
  push_cast
  rw [sub_div, qshift _ (le_max_left a.exp b.exp), qshift _ (le_max_right a.exp b.exp)]

theorem JNum.toRat_abs (a : JNum) : a.abs.toRat = |a.toRat| := by
  unfold JNum.abs JNum.toRat
  dsimp only
  rw [abs_div, abs_of_pos (pow10_pos a.exp)]
  congr 1
  push_cast [Int.cast_natAbs]
  rfl

theorem BALANCE_TOLERANCE_toRat : BALANCE_TOLERANCE.toRat = 1 / 100 := by
  unfold BALANCE_TOLERANCE JNum.toRat
  norm_num

/-! ## Claim C2 — the chronology warning -/

/-- C2: the claim says every non-empty ledger out of non-decreasing
`entryDate` order gets at least one `CHRONOLOGY_WARNING`.  The code instead
scans the *date-sorted copy* of the `(date, num)` pairs for a decrease, a
test that can never fire: no ledger ever produces a `CHRONOLOGY_WARNING`.
In particular the decreasing-date ledger `[chronLate, chronEarly]`
(`20240202` before `20240101`) yields no warning at all. -/
theorem chronology_check_never_fires :
    (∀ entries, ((validateFECCompliance entries).warnings.filter
        fun i => i.type = js "CHRONOLOGY_WARNING") = []) ∧
    jsLt chronEarly.EcritureDate chronLate.EcritureDate = true ∧
    (validateFECCompliance [chronLate, chronEarly]).warnings = [] := by
  refine ⟨?_, by decide, by decide⟩
  intro entries
  by_cases h : entries = []
  · subst h; decide
  · rw [validate_eq_of_ne_nil h]
    dsimp only
    rw [chronIssues_eq_nil, List.nil_append, List.filter_append]
    rw [filter_type_eq_nil (fun i hi => by rw [vatIssues_types entries hi]; decide),
      filter_type_eq_nil (fun i hi => by rw [journalIssues_types entries hi]; decide)]
    rfl

/-! ## Claim C7 — the empty ledger -/

/-- C7 (counterexample): the single error reported for an empty ledger has
kind `EMPTY_FEC`, not `EMPTY_LEDGER` as the claim states — no error of kind
`EMPTY_LEDGER` is ever present. -/
theorem validate_empty_no_EMPTY_LEDGER :
    (validateFECCompliance []).valid = false ∧
    (validateFECCompliance []).errors.length = 1 ∧
    ((validateFECCompliance []).errors.filter fun i => i.type = js "EMPTY_LEDGER") = [] := by
  decide

/-- C7 (amended): validate on an empty ledger never throws and returns
`valid = false` with exactly one error, of kind `EMPTY_FEC`, and no
warnings; no further checks are run. -/
theorem validate_empty_ledger_result :
    validateFECCompliance [] =
      ⟨false, [⟨js "EMPTY_FEC", js "Aucune écriture à valider", none⟩], []⟩ := by
  decide

/-! ## Claim C9 — VAT warnings -/

/-- The VAT pass, re-expressed over the `ℚ` value of the amount it tests. -/
theorem vatIssues_eq (entries : List Entry) :
    vatIssues entries =
      (entries.filter fun e => (js "445").isPrefixOf e.CompteNum ∧
          (jsParseFloat (jsOr (jsOr e.Debit e.Credit) (js "0"))).map JNum.toRat = some 0).map
        fun e => ⟨js "VAT_WARNING", js "Compte TVA " ++ e.CompteNum ++ js " avec montant nul",
          some e.EcritureNum⟩ := by
  induction entries with
  | nil => rfl
  | cons e rest ih =>
    simp only [vatIssues] at ih ⊢
    by_cases h1 : (js "445").isPrefixOf e.CompteNum = true
    · by_cases h2 : jsIsZero (jsParseFloat (jsOr (jsOr e.Debit e.Credit) (js "0"))) = true
      · have hq := jsIsZero_iff.mp h2
        have hfe : (if (js "445").isPrefixOf e.CompteNum = true then
            (if jsIsZero (jsParseFloat (jsOr (jsOr e.Debit e.Credit) (js "0"))) = true then
              some (⟨js "VAT_WARNING",
                js "Compte TVA " ++ e.CompteNum ++ js " avec montant nul",
                some e.EcritureNum⟩ : Issue)
            else none) else none) =
            some (⟨js "VAT_WARNING",
              js "Compte TVA " ++ e.CompteNum ++ js " avec montant nul",
              some e.EcritureNum⟩ : Issue) := by
          rw [if_pos h1, if_pos h2]
        have hp : decide ((js "445").isPrefixOf e.CompteNum = true ∧
            (jsParseFloat (jsOr (jsOr e.Debit e.Credit) (js "0"))).map JNum.toRat = some 0) =
            true := by
          rw [decide_eq_true_eq]
          exact ⟨h1, hq⟩
        simp only [List.filterMap_cons, List.filter_cons, hfe, hp, eq_self_iff_true,
          if_true, List.map_cons, ih]
      · have hq : ¬ (jsParseFloat (jsOr (jsOr e.Debit e.Credit) (js "0"))).map JNum.toRat = some 0 :=
          fun hc => h2 (jsIsZero_iff.mpr hc)
        have hfe : (if (js "445").isPrefixOf e.CompteNum = true then
            (if jsIsZero (jsParseFloat (jsOr (jsOr e.Debit e.Credit) (js "0"))) = true then
              some (⟨js "VAT_WARNING",
                js "Compte TVA " ++ e.CompteNum ++ js " avec montant nul",
                some e.EcritureNum⟩ : Issue)
            else none) else none) = none := by
          rw [if_pos h1, if_neg h2]
        have hp : decide ((js "445").isPrefixOf e.CompteNum = true ∧
            (jsParseFloat (jsOr (jsOr e.Debit e.Credit) (js "0"))).map JNum.toRat = some 0) =
            false := by
          rw [decide_eq_false_iff_not]
          exact fun hc => hq hc.2
        simp only [List.filterMap_cons, List.filter_cons, hfe, hp, Bool.false_eq_true,
          if_false, ih]
    · have hfe : (if (js "445").isPrefixOf e.CompteNum = true then
          (if jsIsZero (jsParseFloat (jsOr (jsOr e.Debit e.Credit) (js "0"))) = true then
            some (⟨js "VAT_WARNING",
              js "Compte TVA " ++ e.CompteNum ++ js " avec montant nul",
              some e.EcritureNum⟩ : Issue)
          else none) else none) = none := by
        rw [if_neg h1]
      have hp : decide ((js "445").isPrefixOf e.CompteNum = true ∧
          (jsParseFloat (jsOr (jsOr e.Debit e.Credit) (js "0"))).map JNum.toRat = some 0) =
          false := by
        rw [decide_eq_false_iff_not]
        exact fun hc => h1 hc.1
      simp only [List.filterMap_cons, List.filter_cons, hfe, hp, Bool.false_eq_true,
        if_false, ih]

/-- C9 (counterexample): the entry `vatMaskedEntry` has account `44566123`
(VAT prefix), debit `"0.00"` and credit `"500.00"` — a nonzero credit — yet
validate emits a `VAT_WARNING` for it: the tested amount is
`parseFloat(Debit || Credit || 0)` and the truthy `"0.00"` debit masks the
credit, contradicting the claim that a nonzero debit or credit never
warns. -/
theorem vat_warning_despite_nonzero_credit :
    ((validateFECCompliance [vatMaskedEntry]).warnings.filter
        fun i => i.type = js "VAT_WARNING") =
      [⟨js "VAT_WARNING", js "Compte TVA 44566123 avec montant nul", some (js "3")⟩] ∧
    jsParseFloat vatMaskedEntry.Credit = some ⟨50000, 2⟩ ∧
    JNum.beq ⟨50000, 2⟩ ⟨0, 0⟩ = false := by
  decide

/-- C9 (amended): for every ledger, the `VAT_WARNING` warnings are exactly
one warning per entry whose `accountNumber` starts with `445` and whose
resolved amount — `parseFloat` of the debit if non-empty, else of the
credit if non-empty, else `0` — equals zero; an entry with an explicit
zero debit therefore warns even when its credit is nonzero, and an entry
with a nonzero resolved amount never warns. -/
theorem vat_warning_characterisation (entries : List Entry) :
    ((validateFECCompliance entries).warnings.filter fun i => i.type = js "VAT_WARNING") =
      (entries.filter fun e => (js "445").isPrefixOf e.CompteNum ∧
          (jsParseFloat (jsOr (jsOr e.Debit e.Credit) (js "0"))).map JNum.toRat = some 0).map
        fun e => ⟨js "VAT_WARNING", js "Compte TVA " ++ e.CompteNum ++ js " avec montant nul",
          some e.EcritureNum⟩ := by
  rw [← vatIssues_eq]
  by_cases h : entries = []
  · subst h; rfl
  · rw [validate_eq_of_ne_nil h]
    dsimp only
    rw [chronIssues_eq_nil, List.nil_append, List.filter_append]
    rw [List.filter_eq_self.mpr
        (fun i hi => by rw [vatIssues_types entries hi]; decide),
      filter_type_eq_nil (fun i hi => by rw [journalIssues_types entries hi]; decide)]
    rw [List.append_nil]

/-! ## Claim C10 — serialization of non-numeric and empty amounts -/

/-- C10: serialization never fails on a non-empty ledger even when an
amount field is non-numeric: the file is the CRLF-join of the header and
one line per entry, each line the pipe-join of the 18 serialized fields,
and for an amount field the serialized value is the literal `NaN` when the
stored value is non-empty but unparsable, and `0,00` when it is empty. -/
theorem serialize_nan_and_empty_amounts (entries : List Entry) (i : Nat) (e : Entry)
    (f : Field) (hget : entries[i]? = some e) (hf : isAmountField f = true) :
    generateFECFile entries =
      .ok (joinSep (js "\r\n") (fecHeader :: entries.map fecLine)) ∧
    fecLine e = joinSep ['|'] (FEC_FIELDS.map (serializeField e)) ∧
    (e.get f ≠ [] → jsParseFloat (e.get f) = none → serializeField e f = js "NaN") ∧
    (e.get f = [] → serializeField e f = js "0,00") := by
  have hne : entries ≠ [] := by
    intro hc
    subst hc
    simp at hget
  refine ⟨by unfold generateFECFile; rw [if_neg hne], rfl, ?_, ?_⟩
  · intro hne2 hnan
    unfold serializeField
    rw [hf]
    dsimp only
    rw [if_pos rfl]
    unfold jsOr
    rw [if_neg hne2, hnan]
    decide
  · intro hemp
    unfold serializeField
    rw [hf]
    dsimp only
    rw [if_pos rfl]
    unfold jsOr
    rw [if_pos hemp]
    decide

/-- C10 (witness): the concrete entry `nanEntry` (debit `"abc"`, empty
foreign amount) serializes without failure, with `NaN` in the debit column
and `0,00` in the foreign-amount column. -/
theorem serialize_nan_and_empty_amounts_witness :
    generateFECFile [nanEntry] =
      .ok (joinSep (js "\r\n") (fecHeader :: [nanEntry].map fecLine)) ∧
    serializeField nanEntry .Debit = js "NaN" ∧
    serializeField nanEntry .Montantdevise = js "0,00" := by
  refine ⟨(serialize_nan_and_empty_amounts [nanEntry] 0 nanEntry .Debit rfl rfl).1, ?_, ?_⟩
  · exact (serialize_nan_and_empty_amounts [nanEntry] 0 nanEntry .Debit rfl rfl).2.2.1
      (by decide) (by decide)
  · exact (serialize_nan_and_empty_amounts [nanEntry] 0 nanEntry .Montantdevise rfl rfl).2.2.2 rfl

/-! ## Membership machinery for `ENTRY_INVALID` issues -/

/-- Each `validateEntry` message of the entry at position `i` appears among
the `ENTRY_INVALID` issues, tagged with the entry. -/
theorem entryIssues_mem {entries : List Entry} {i : Nat} {e : Entry} {msg : JStr}
    (hget : entries[i]? = some e) (hmsg : msg ∈ validateEntry e) :
    (⟨js "ENTRY_INVALID", msg, some (entryTag i e)⟩ : Issue) ∈ entryIssues entries := by
  unfold entryIssues
  rw [List.mem_flatMap]
  refine ⟨(i, e), ?_, ?_⟩
  · rw [List.mem_enum_iff_getElem?]
    exact hget
  · rw [List.mem_map]
    exact ⟨msg, hmsg, rfl⟩

/-- Any issue in the error list forces `valid = false`. -/
theorem valid_false_of_mem_errors {entries : List Entry} {issue : Issue}
    (h : issue ∈ (validateFECCompliance entries).errors) :
    (validateFECCompliance entries).valid = false := by
  by_cases hne : entries = []
  · subst hne; rfl
  · rw [validate_eq_of_ne_nil hne] at h ⊢
    dsimp only at h ⊢
    have hne2 : entryIssues entries ++ balanceIssues entries ++ dupIssues entries ≠ [] :=
      List.ne_nil_of_mem h
    rw [Bool.eq_false_iff]
    intro hic
    exact hne2 (List.isEmpty_iff.mp hic)

/-- An `entryIssues` member is an error of the full validation. -/
theorem mem_errors_of_entryIssues {entries : List Entry} {issue : Issue}
    (hne : entries ≠ []) (h : issue ∈ entryIssues entries) :
    issue ∈ (validateFECCompliance entries).errors := by
  rw [validate_eq_of_ne_nil hne]
  dsimp only
  exact List.mem_append.mpr (Or.inl (List.mem_append.mpr (Or.inl h)))

/-- The required-field message of `validateEntry`. -/
theorem validateEntry_mem_required {e : Entry} {f : Field}
    (hf : f ∈ requiredFields) (hempty : trim (e.get f) = []) :
    js "Champ requis manquant: " ++ fieldName f ∈ validateEntry e := by
  unfold validateEntry
  dsimp only
  refine List.mem_append.mpr (Or.inl (List.mem_append.mpr (Or.inl (List.mem_append.mpr
    (Or.inl (List.mem_append.mpr (Or.inl (List.mem_append.mpr (Or.inl
      (List.mem_append.mpr (Or.inl ?_)))))))))))
  rw [List.mem_filterMap]
  exact ⟨f, hf, by rw [if_pos hempty]⟩

/-- The both-amounts-zero message of `validateEntry`. -/
theorem validateEntry_mem_zero {e : Entry}
    (hd : jsIsZero (entryDebit e) = true) (hc : jsIsZero (entryCredit e) = true) :
    js "Au moins un montant (débit ou crédit) doit être non nul" ∈ validateEntry e := by
  unfold validateEntry
  dsimp only
  refine List.mem_append.mpr (Or.inl (List.mem_append.mpr (Or.inr ?_)))
  rw [if_pos ⟨hd, hc⟩]
  exact List.mem_singleton.mpr rfl

/-- The both-amounts-positive message of `validateEntry`. -/
theorem validateEntry_mem_both {e : Entry}
    (hd : jsGt (entryDebit e) (some ⟨0, 0⟩) = true)
    (hc : jsGt (entryCredit e) (some ⟨0, 0⟩) = true) :
    js "Débit et crédit ne peuvent pas être tous deux renseignés" ∈ validateEntry e := by
  unfold validateEntry
  dsimp only
  refine List.mem_append.mpr (Or.inr ?_)
  rw [if_pos ⟨hd, hc⟩]
  exact List.mem_singleton.mpr rfl

/-! ## Claim C4 — mutual exclusivity of debit and credit -/

/-- C4 (counterexample): the balanced two-entry ledger with a negative
debit of `-5.00` and a negative credit of `-5.00` validates — no
`ENTRY_INVALID` at all and `valid = true` — although the claim demands an
`ENTRY_INVALID` error for any negative debit or credit: the code never
checks amount signs. -/
theorem negative_amounts_validate :
    (validateFECCompliance [negDebitEntry, negCreditEntry]).valid = true ∧
    (validateFECCompliance [negDebitEntry, negCreditEntry]).errors = [] ∧
    entryDebit negDebitEntry = some ⟨-500, 2⟩ ∧
    (⟨-500, 2⟩ : JNum).toRat < 0 := by
  refine ⟨by decide, by decide, by decide, ?_⟩
  unfold JNum.toRat
  norm_num

/-- C4 (amended): an entry whose debit and credit both parse to zero, or
both parse to strictly positive values, always yields an `ENTRY_INVALID`
error tagged with the entry (its `EcritureNum`, or its 1-based position),
and the ledger never validates.  Negative amounts are not flagged — see
the counterexample. -/
theorem entry_amount_exclusivity_invalid (entries : List Entry) (i : Nat) (e : Entry)
    (hget : entries[i]? = some e)
    (h : ((entryDebit e).map JNum.toRat = some 0 ∧ (entryCredit e).map JNum.toRat = some 0) ∨
      (∃ d c : JNum, entryDebit e = some d ∧ entryCredit e = some c ∧
        0 < d.toRat ∧ 0 < c.toRat)) :
    (validateFECCompliance entries).valid = false ∧
    ∃ issue ∈ (validateFECCompliance entries).errors,
      issue.type = js "ENTRY_INVALID" ∧ issue.entry = some (entryTag i e) ∧
      (issue.message = js "Au moins un montant (débit ou crédit) doit être non nul" ∨
       issue.message = js "Débit et crédit ne peuvent pas être tous deux renseignés") := by
  have hne : entries ≠ [] := fun hc => by subst hc; simp at hget
  have hmsg : ∃ msg, msg ∈ validateEntry e ∧
      (msg = js "Au moins un montant (débit ou crédit) doit être non nul" ∨
       msg = js "Débit et crédit ne peuvent pas être tous deux renseignés") := by
    rcases h with ⟨hd, hc⟩ | ⟨d, c, hd, hc, hdp, hcp⟩
    · exact ⟨_, validateEntry_mem_zero (jsIsZero_iff.mpr hd) (jsIsZero_iff.mpr hc), Or.inl rfl⟩
    · refine ⟨_, validateEntry_mem_both ?_ ?_, Or.inr rfl⟩
      · rw [hd]
        exact jsGt_some_iff.mpr (by rw [JNum.toRat_zero]; exact hdp)
      · rw [hc]
        exact jsGt_some_iff.mpr (by rw [JNum.toRat_zero]; exact hcp)
  obtain ⟨msg, hmem, hcase⟩ := hmsg
  have hErr := mem_errors_of_entryIssues hne (entryIssues_mem hget hmem)
  exact ⟨valid_false_of_mem_errors hErr, _, hErr, rfl, rfl, hcase⟩

/-- C4 (witness): the single-entry ledger `[bothZeroEntry]` (both amounts
`"0.00"`) is rejected with an `ENTRY_INVALID` error. -/
theorem entry_amount_exclusivity_witness :
    (validateFECCompliance [bothZeroEntry]).valid = false ∧
    ∃ issue ∈ (validateFECCompliance [bothZeroEntry]).errors,
      issue.type = js "ENTRY_INVALID" ∧ issue.entry = some (entryTag 0 bothZeroEntry) ∧
      (issue.message = js "Au moins un montant (débit ou crédit) doit être non nul" ∨
       issue.message = js "Débit et crédit ne peuvent pas être tous deux renseignés") := by
  apply entry_amount_exclusivity_invalid [bothZeroEntry] 0 bothZeroEntry rfl
  left
  constructor
  · rw [show entryDebit bothZeroEntry = some ⟨0, 2⟩ from by decide]
    simp [JNum.toRat]
  · rw [show entryCredit bothZeroEntry = some ⟨0, 2⟩ from by decide]
    simp [JNum.toRat]

/-! ## Claim C5 — required fields -/

/-- C5 (counterexample): `noLabelEntry` has an empty `JournalLib`
(journalLabel) and an empty `PieceDate` (documentDate) — both required by
the claim's field list — yet `validateEntry` reports nothing and the
ledger containing it gets no `ENTRY_INVALID` issue: the code's required
list omits these two fields. -/
theorem missing_label_and_docdate_not_flagged :
    noLabelEntry.JournalLib = [] ∧ noLabelEntry.PieceDate = [] ∧
    validateEntry noLabelEntry = [] ∧
    ((validateFECCompliance [noLabelEntry]).errors.filter
      fun i => i.type = js "ENTRY_INVALID") = [] := by
  decide

/-- C5 (amended): the required-checked fields are `JournalCode`,
`EcritureNum`, `EcritureDate`, `CompteNum`, `CompteLib`, `PieceRef` and
`EcritureLib`; an entry with an empty (or blank) value in one of them
always yields an `ENTRY_INVALID` error naming the field and tagged with
the entry (its `EcritureNum`, or its 1-based position).  `JournalLib` and
`PieceDate` are not checked — see the counterexample. -/
theorem required_field_missing_invalid (entries : List Entry) (i : Nat) (e : Entry)
    (f : Field) (hget : entries[i]? = some e) (hf : f ∈ requiredFields)
    (hempty : trim (e.get f) = []) :
    (validateFECCompliance entries).valid = false ∧
    ∃ issue ∈ (validateFECCompliance entries).errors,
      issue.type = js "ENTRY_INVALID" ∧
      issue.message = js "Champ requis manquant: " ++ fieldName f ∧
      issue.entry = some (entryTag i e) := by
  have hne : entries ≠ [] := fun hc => by subst hc; simp at hget
  have hErr := mem_errors_of_entryIssues hne
    (entryIssues_mem hget (validateEntry_mem_required hf hempty))
  exact ⟨valid_false_of_mem_errors hErr, _, hErr, rfl, rfl, rfl⟩

/-- C5 (witness): the single-entry ledger `[missingRefEntry]` (empty
`PieceRef`) is rejected with the required-field `ENTRY_INVALID` error. -/
theorem required_field_missing_witness :
    (validateFECCompliance [missingRefEntry]).valid = false ∧
    ∃ issue ∈ (validateFECCompliance [missingRefEntry]).errors,
      issue.type = js "ENTRY_INVALID" ∧
      issue.message = js "Champ requis manquant: " ++ fieldName .PieceRef ∧
      issue.entry = some (entryTag 0 missingRefEntry) :=
  required_field_missing_invalid [missingRefEntry] 0 missingRefEntry .PieceRef rfl
    (by decide) (by decide)

/-! ## Claim C8 — duplicate entry numbers -/

theorem countOcc_nil (v : JStr) : countOcc v [] = 0 := rfl

theorem countOcc_cons (v a : JStr) (t : List JStr) :
    countOcc v (a :: t) = countOcc v t + (if a = v then 1 else 0) := by
  by_cases h : a = v
  · simp [countOcc, List.filter_cons, h]
  · simp [countOcc, List.filter_cons, h]

theorem countOcc_append (v : JStr) (l1 l2 : List JStr) :
    countOcc v (l1 ++ l2) = countOcc v l1 + countOcc v l2 := by
  simp [countOcc, List.filter_append]

theorem countOcc_eq_zero_of_not_mem {v : JStr} {l : List JStr} (h : v ∉ l) :
    countOcc v l = 0 := by
  unfold countOcc
  rw [List.length_eq_zero, List.filter_eq_nil_iff]
  intro a ha
  simp only [decide_eq_true_eq]
  intro hc
  exact h (hc ▸ ha)

theorem countOcc_perm {l1 l2 : List JStr} (h : l1.Perm l2) (v : JStr) :
    countOcc v l1 = countOcc v l2 :=
  (h.filter _).length_eq

theorem countIssueOcc_append (i : Issue) (l1 l2 : List Issue) :
    countIssueOcc i (l1 ++ l2) = countIssueOcc i l1 + countIssueOcc i l2 := by
  simp [countIssueOcc, List.filter_append]

theorem countIssueOcc_eq_zero_of_not_mem {i : Issue} {l : List Issue} (h : i ∉ l) :
    countIssueOcc i l = 0 := by
  unfold countIssueOcc
  rw [List.length_eq_zero, List.filter_eq_nil_iff]
  intro a ha
  simp only [decide_eq_true_eq]
  intro hc
  exact h (hc ▸ ha)

theorem dupIssue_injective : Function.Injective dupIssue := by
  intro x y h
  simp only [dupIssue, Issue.mk.injEq] at h
  exact List.append_cancel_left h.2.1

theorem countIssueOcc_map_dupIssue (v : JStr) (l : List JStr) :
    countIssueOcc (dupIssue v) (l.map dupIssue) = countOcc v l := by
  induction l with
  | nil => rfl
  | cons a t ih =>
    rw [List.map_cons, countOcc_cons]
    unfold countIssueOcc at ih ⊢
    rw [List.filter_cons]
    by_cases h : a = v
    · subst h
      simp only [decide_eq_true_eq, eq_self_iff_true, if_true, List.length_cons, ih]
    · have h2 : ¬ dupIssue a = dupIssue v := fun hc => h (dupIssue_injective hc)
      simp only [decide_eq_true_eq, h2, if_false, ih, h]
      simp [h, h2]

/-- In a list sorted by `jsLe`, the adjacent-duplicate positions of value
`v` number exactly one less than the occurrences of `v` (truncated at
zero). -/
theorem countOcc_adjDups_of_sorted (v : JStr) :
    ∀ l : List JStr, List.Sorted jsLeP l → countOcc v (adjDups l) = countOcc v l - 1 := by
  intro l
  induction l with
  | nil => intro _; rfl
  | cons a t ih =>
    intro hs
    rw [List.sorted_cons] at hs
    obtain ⟨ha, hs2⟩ := hs
    cases t with
    | nil =>
      rw [show adjDups [a] = [] from rfl, countOcc_cons, countOcc_nil]
      by_cases hav : a = v
      · rw [if_pos hav]
      · rw [if_neg hav]
    | cons b t2 =>
      have ih2 := ih hs2
      have hb : ∀ x ∈ t2, jsLe b x = true := by
        rw [List.sorted_cons] at hs2
        exact hs2.1
      rw [show adjDups (a :: b :: t2) = (if b = a then [b] else []) ++ adjDups (b :: t2)
          from rfl,
        countOcc_append, ih2, countOcc_cons v a (b :: t2)]
      by_cases hba : b = a
      · rw [if_pos hba]
        by_cases hav : a = v
        · have hbv : b = v := hba.trans hav
          have hbt : countOcc v (b :: t2) = countOcc v t2 + 1 := by
            rw [countOcc_cons, if_pos hbv]
          rw [if_pos hav, countOcc_cons v b List.nil, if_pos hbv, countOcc_nil, hbt]
          omega
        · have hbv : ¬ b = v := fun h => hav (hba.symm.trans h)
          rw [if_neg hav, countOcc_cons v b List.nil, if_neg hbv, countOcc_nil]
          omega
      · rw [if_neg hba, countOcc_nil]
        by_cases hav : a = v
        · have hnotmem : v ∉ b :: t2 := by
            intro hmem
            rcases List.mem_cons.mp hmem with hvb | hvt
            · exact hba (hvb.symm.trans hav.symm)
            · have h1 : jsLe a b = true := ha b (List.mem_cons_self b t2)
              have h2 : jsLe b v = true := hb v hvt
              rw [hav] at h1
              exact hba ((jsLe_antisymm h2 h1).trans hav.symm)
          rw [countOcc_eq_zero_of_not_mem hnotmem, if_pos hav]
        · rw [if_neg hav]
          omega

/-- The duplicate scan reports exactly the adjacent-duplicate values, as
`DUPLICATE_NUM` issues. -/
theorem dupScan_eq_map (l : List JStr) : dupScan l = (adjDups l).map dupIssue := by
  induction l with
  | nil => rfl
  | cons a t ih =>
    cases t with
    | nil => rfl
    | cons b t2 =>
      show (if b = a then [dupIssue b] else []) ++ dupScan (b :: t2) = _
      rw [show adjDups (a :: b :: t2) = (if b = a then [b] else []) ++ adjDups (b :: t2)
          from rfl,
        List.map_append, ih]
      by_cases hba : b = a
      · rw [if_pos hba, if_pos hba]
        rfl
      · rw [if_neg hba, if_neg hba]
        rfl

/-- C8: a value occurring `k ≥ 2` times among the entry numbers of a
non-empty ledger generates exactly `k − 1` occurrences of the
`DUPLICATE_NUM` error naming it among validate's errors (one per duplicate
occurrence, not deduplicated). -/
theorem duplicate_num_errors (entries : List Entry) (v : JStr)
    (hk : 2 ≤ countOcc v (entries.map fun e => e.EcritureNum)) :
    countIssueOcc (dupIssue v) (validateFECCompliance entries).errors =
      countOcc v (entries.map fun e => e.EcritureNum) - 1 := by
  have hne : entries ≠ [] := by
    intro hc
    subst hc
    simp [countOcc] at hk
  rw [validate_eq_of_ne_nil hne]
  dsimp only
  rw [countIssueOcc_append, countIssueOcc_append]
  have h1 : countIssueOcc (dupIssue v) (entryIssues entries) = 0 := by
    apply countIssueOcc_eq_zero_of_not_mem
    intro hmem
    have hcon := entryIssues_types entries hmem
    rw [show (dupIssue v).type = js "DUPLICATE_NUM" from rfl] at hcon
    exact absurd hcon (by decide)
  have h2 : countIssueOcc (dupIssue v) (balanceIssues entries) = 0 := by
    apply countIssueOcc_eq_zero_of_not_mem
    intro hmem
    have hcon := balanceIssues_types entries hmem
    rw [show (dupIssue v).type = js "DUPLICATE_NUM" from rfl] at hcon
    exact absurd hcon (by decide)
  have h3 : countIssueOcc (dupIssue v) (dupIssues entries) =
      countOcc v (entries.map fun e => e.EcritureNum) - 1 := by
    unfold dupIssues
    rw [dupScan_eq_map, countIssueOcc_map_dupIssue,
      countOcc_adjDups_of_sorted v (List.insertionSort jsLeP (entries.map fun e => e.EcritureNum))
        (List.sorted_insertionSort jsLeP (entries.map fun e => e.EcritureNum)),
      countOcc_perm (List.perm_insertionSort jsLeP (entries.map fun e => e.EcritureNum)) v]
  rw [h1, h2, h3]
  omega

/-- C8 (witness): a ledger with exactly two entries sharing
`EcritureNum = "1"` produces exactly one `DUPLICATE_NUM` error naming
`"1"`. -/
theorem duplicate_num_errors_witness :
    countIssueOcc (dupIssue (js "1")) (validateFECCompliance [creditEntry, dupNumEntry]).errors
      = 1 := by
  have h := duplicate_num_errors [creditEntry, dupNumEntry] (js "1") (by decide)
  rw [show countOcc (js "1") ([creditEntry, dupNumEntry].map fun e => e.EcritureNum) = 2
    from by decide] at h
  exact h

/-! ## Claim C3 — per-piece balance -/

/-- Folding `jsAdd` over `NaN`-free amounts yields a number whose value is
the accumulator plus the exact sum. -/
theorem foldl_jsAdd_some :
    ∀ (l : List (Option JNum)) (acc : JNum), (∀ o ∈ l, o ≠ none) →
      ∃ t : JNum, l.foldl jsAdd (some acc) = some t ∧
        t.toRat = acc.toRat + (l.map amountRat).sum := by
  intro l
  induction l with
  | nil =>
    intro acc _
    exact ⟨acc, rfl, by simp⟩
  | cons o rest ih =>
    intro acc hnn
    obtain ⟨x, rfl⟩ : ∃ x, o = some x := by
      cases o with
      | none => exact absurd rfl (hnn none (List.mem_cons_self _ _))
      | some x => exact ⟨x, rfl⟩
    rw [List.foldl_cons]
    obtain ⟨t, ht, htr⟩ := ih (acc.add x) fun o ho => hnn o (List.mem_cons_of_mem _ ho)
    refine ⟨t, ht, ?_⟩
    rw [htr, JNum.toRat_add, List.map_cons, List.sum_cons,
      show amountRat (some x) = x.toRat from rfl]
    ring

/-- A piece's accumulated debit under the no-`NaN` hypothesis. -/
theorem pieceDebit_toRat (entries : List Entry) (ref : JStr)
    (hnum : ∀ e ∈ entries, entryDebit e ≠ none) :
    ∃ D, pieceDebit entries ref = some D ∧ D.toRat = pieceDebitRat entries ref := by
  obtain ⟨t, ht, htr⟩ := foldl_jsAdd_some
    ((entries.filter fun e => e.PieceRef = ref).map entryDebit) ⟨0, 0⟩
    (by
      intro o ho
      rw [List.mem_map] at ho
      obtain ⟨e, he, rfl⟩ := ho
      exact hnum e (List.mem_of_mem_filter he))
  refine ⟨t, ht, ?_⟩
  rw [htr, JNum.toRat_zero, zero_add, List.map_map]
  rfl

/-- A piece's accumulated credit under the no-`NaN` hypothesis. -/
theorem pieceCredit_toRat (entries : List Entry) (ref : JStr)
    (hnum : ∀ e ∈ entries, entryCredit e ≠ none) :
    ∃ C, pieceCredit entries ref = some C ∧ C.toRat = pieceCreditRat entries ref := by
  obtain ⟨t, ht, htr⟩ := foldl_jsAdd_some
    ((entries.filter fun e => e.PieceRef = ref).map entryCredit) ⟨0, 0⟩
    (by
      intro o ho
      rw [List.mem_map] at ho
      obtain ⟨e, he, rfl⟩ := ho
      exact hnum e (List.mem_of_mem_filter he))
  refine ⟨t, ht, ?_⟩
  rw [htr, JNum.toRat_zero, zero_add, List.map_map]
  rfl

/-- Membership in the first-insertion-order key list. -/
theorem mem_dedup_foldl (ref : JStr) :
    ∀ (l : List JStr) (acc : List JStr),
      (ref ∈ l.foldl (fun acc r => if r ∈ acc then acc else acc ++ [r]) acc ↔
        ref ∈ acc ∨ ref ∈ l) := by
  intro l
  induction l with
  | nil => simp
  | cons a t ih =>
    intro acc
    rw [List.foldl_cons]
    by_cases h : a ∈ acc
    · rw [if_pos h, ih]
      constructor
      · rintro (hm | hm)
        · exact Or.inl hm
        · exact Or.inr (List.mem_cons_of_mem _ hm)
      · rintro (hm | hm)
        · exact Or.inl hm
        · rcases List.mem_cons.mp hm with rfl | hm
          · exact Or.inl h
          · exact Or.inr hm
    · rw [if_neg h, ih]
      constructor
      · rintro (hm | hm)
        · rcases List.mem_append.mp hm with hm | hm
          · exact Or.inl hm
          · exact Or.inr (List.mem_cons.mpr (Or.inl (List.mem_singleton.mp hm)))
        · exact Or.inr (List.mem_cons_of_mem _ hm)
      · rintro (hm | hm)
        · exact Or.inl (List.mem_append.mpr (Or.inl hm))
        · rcases List.mem_cons.mp hm with rfl | hm
          · exact Or.inl (List.mem_append.mpr (Or.inr (List.mem_singleton.mpr rfl)))
          · exact Or.inr hm

theorem mem_pieceRefs_iff (entries : List Entry) (ref : JStr) :
    ref ∈ pieceRefs entries ↔ ref ∈ entries.map fun e => e.PieceRef := by
  unfold pieceRefs
  rw [mem_dedup_foldl]
  simp

/-- C3: for every `documentRef` present in a non-empty ledger whose debit
and credit fields all parse as numbers, validate emits a `BALANCE_ERROR`
naming that piece if and only if the absolute difference between the
piece's total debit and total credit exceeds the `0.01` tolerance. -/
theorem balance_error_iff (entries : List Entry) (ref : JStr)
    (hmem : ref ∈ entries.map fun e => e.PieceRef)
    (hnum : ∀ e ∈ entries, entryDebit e ≠ none ∧ entryCredit e ≠ none) :
    ((∃ issue ∈ (validateFECCompliance entries).errors,
        issue.type = js "BALANCE_ERROR" ∧ issue.entry = some ref) ↔
      1/100 < |pieceDebitRat entries ref - pieceCreditRat entries ref|) := by
  have hne : entries ≠ [] := by
    intro hc
    subst hc
    simp at hmem
  obtain ⟨D, hD, hDr⟩ := pieceDebit_toRat entries ref fun e he => (hnum e he).1
  obtain ⟨C, hC, hCr⟩ := pieceCredit_toRat entries ref fun e he => (hnum e he).2
  have hcond : (jsGt (jsAbs (jsSub (pieceDebit entries ref) (pieceCredit entries ref)))
      (some BALANCE_TOLERANCE) = true) ↔
      1/100 < |pieceDebitRat entries ref - pieceCreditRat entries ref| := by
    rw [hD, hC]
    rw [show jsGt (jsAbs (jsSub (some D) (some C))) (some BALANCE_TOLERANCE) =
        jsGt (some ((D.sub C).abs)) (some BALANCE_TOLERANCE) from rfl,
      jsGt_some_iff, JNum.toRat_abs, JNum.toRat_sub, BALANCE_TOLERANCE_toRat, hDr, hCr]
  constructor
  · rintro ⟨issue, hiss, htype, hentry⟩
    rw [validate_eq_of_ne_nil hne] at hiss
    dsimp only at hiss
    rcases List.mem_append.mp hiss with hiss | hdup
    · rcases List.mem_append.mp hiss with hent | hbal
      · have hcon := entryIssues_types entries hent
        rw [htype] at hcon
        exact absurd hcon (by decide)
      · unfold balanceIssues at hbal
        rw [List.mem_filterMap] at hbal
        obtain ⟨ref2, _, hg⟩ := hbal
        dsimp only at hg
        split at hg
        · cases hg
          have hre : ref2 = ref := Option.some.inj hentry
          subst hre
          exact hcond.mp (by assumption)
        · cases hg
    · have hcon := dupScan_types _ hdup
      rw [htype] at hcon
      exact absurd hcon (by decide)
  · intro hgt
    rw [validate_eq_of_ne_nil hne]
    dsimp only
    refine ⟨⟨js "BALANCE_ERROR",
      js "Pièce " ++ ref ++ js " déséquilibrée: Débit " ++
        jsToFixed2 (pieceDebit entries ref) ++ js " ≠ Crédit " ++
        jsToFixed2 (pieceCredit entries ref),
      some ref⟩, ?_, rfl, rfl⟩
    refine List.mem_append.mpr (Or.inl (List.mem_append.mpr (Or.inr ?_)))
    unfold balanceIssues
    rw [List.mem_filterMap]
    refine ⟨ref, (mem_pieceRefs_iff entries ref).mpr hmem, ?_⟩
    dsimp only
    rw [if_pos (hcond.mpr hgt)]

/-- C3 (witness): the single-entry ledger `[creditEntry]` (credit 1000.00,
debit 0, piece `F001`) carries a `BALANCE_ERROR` naming `F001`. -/
theorem balance_error_iff_witness :
    ∃ issue ∈ (validateFECCompliance [creditEntry]).errors,
      issue.type = js "BALANCE_ERROR" ∧ issue.entry = some (js "F001") := by
  apply (balance_error_iff [creditEntry] (js "F001") (by decide) (by decide)).mpr
  have hd : pieceDebitRat [creditEntry] (js "F001") = (⟨0, 2⟩ : JNum).toRat + 0 := by
    unfold pieceDebitRat
    rw [show ([creditEntry].filter fun e => e.PieceRef = js "F001") = [creditEntry]
        from by decide,
      List.map_cons, List.map_nil, List.sum_cons, List.sum_nil,
      show entryDebit creditEntry = some ⟨0, 2⟩ from by decide]
    rfl
  have hc : pieceCreditRat [creditEntry] (js "F001") = (⟨100000, 2⟩ : JNum).toRat + 0 := by
    unfold pieceCreditRat
    rw [show ([creditEntry].filter fun e => e.PieceRef = js "F001") = [creditEntry]
        from by decide,
      List.map_cons, List.map_nil, List.sum_cons, List.sum_nil,
      show entryCredit creditEntry = some ⟨100000, 2⟩ from by decide]
    rfl
  rw [hd, hc]
  unfold JNum.toRat
  norm_num

/-! ## Claim C6 — parse failures and line skipping -/

/-- The retained-entry count equals the number of 18-column data lines. -/
theorem length_parse_filterMap (ls : List JStr) :
    (ls.filterMap fun l =>
      if (splitOnChar '|' l).length = 18 then some (entryFromValues (splitOnChar '|' l))
      else none).length =
    (ls.filter fun l => (splitOnChar '|' l).length = 18).length := by
  induction ls with
  | nil => rfl
  | cons a t ih =>
    rw [List.filterMap_cons, List.filter_cons]
    by_cases h : (splitOnChar '|' a).length = 18
    · rw [if_pos h, if_pos (by rw [decide_eq_true_eq]; exact h)]
      show (List.filterMap _ t).length + 1 = (List.filter _ t).length + 1
      rw [ih]
    · rw [if_neg h, if_neg (by rw [decide_eq_true_eq]; exact h)]
      exact ih

/-- C6: `parseFECFile` fails exactly when the input is empty or
whitespace-only, or has fewer than two non-blank lines, or the header does
not split on `|` into exactly 18 columns; and whenever it succeeds it
returns one entry per 18-column data line, silently skipping the others. -/
theorem parse_failure_characterisation (content : JStr) :
    ((∃ msg, parseFECFile content = .error msg) ↔
      (trim content = [] ∨ (fecLines content).length < 2 ∨
        (splitOnChar '|' ((fecLines content).headD [])).length ≠ 18)) ∧
    (∀ es, parseFECFile content = .ok es →
      es.length = (((fecLines content).drop 1).filter
        fun l => (splitOnChar '|' l).length = 18).length) := by
  unfold parseFECFile
  by_cases h1 : trim content = []
  · rw [if_pos h1]
    refine ⟨⟨fun _ => Or.inl h1, fun _ => ⟨_, rfl⟩⟩, fun es hes => ?_⟩
    exact absurd hes (by intro h; cases h)
  · rw [if_neg h1]
    dsimp only
    by_cases h2 : (fecLines content).length < 2
    · rw [if_pos h2]
      refine ⟨⟨fun _ => Or.inr (Or.inl h2), fun _ => ⟨_, rfl⟩⟩, fun es hes => ?_⟩
      exact absurd hes (by intro h; cases h)
    · rw [if_neg h2, show FEC_FIELDS.length = 18 from rfl]
      by_cases h3 : (splitOnChar '|' ((fecLines content).headD [])).length ≠ 18
      · rw [if_pos h3]
        refine ⟨⟨fun _ => Or.inr (Or.inr h3), fun _ => ⟨_, rfl⟩⟩, fun es hes => ?_⟩
        exact absurd hes (by intro h; cases h)
      · rw [if_neg h3]
        constructor
        · constructor
          · rintro ⟨msg, hmsg⟩
            exact absurd hmsg (by intro h; cases h)
          · rintro (hc | hc | hc)
            · exact absurd hc h1
            · exact absurd hc h2
            · exact absurd hc h3
        · intro es hes
          have hinj : ((fecLines content).drop 1).filterMap (fun l =>
              if (splitOnChar '|' l).length = 18 then some (entryFromValues (splitOnChar '|' l))
              else none) = es := by
            injection hes
          rw [← hinj, length_parse_filterMap]

/-- C6 (witness): `skipFile` has two data lines, one of them 17 columns
wide; parsing succeeds (no error exists) and yields exactly one entry —
one fewer than the number of data lines. -/
theorem parse_failure_characterisation_witness :
    ((fecLines skipFile).drop 1).length = 2 ∧
    ¬ (∃ msg, parseFECFile skipFile = .error msg) ∧
    ∀ es, parseFECFile skipFile = .ok es → es.length = 1 := by
  have h := parse_failure_characterisation skipFile
  refine ⟨by decide, ?_, ?_⟩
  · intro hex
    rcases h.1.mp hex with hc | hc | hc
    · exact absurd hc (by decide)
    · exact absurd hc (by decide)
    · exact absurd hc (by decide)
  · intro es hes
    rw [h.2 es hes]
    decide

/-! ## Claim C1 — string-splitting lemmas -/

theorem splitOnChar_no_sep {c : Char} :
    ∀ {p : JStr}, c ∉ p → splitOnChar c p = [p] := by
  intro p
  induction p with
  | nil => intro _; rfl
  | cons x r ih =>
    intro h
    have hx : ¬ x = c := fun hc => h (hc ▸ List.mem_cons_self x r)
    have hr : c ∉ r := fun hc => h (List.mem_cons_of_mem _ hc)
    rw [show splitOnChar c (x :: r) =
        (if x = c then [] :: splitOnChar c r
         else match splitOnChar c r with
           | [] => [[x]]
           | p :: ps => (x :: p) :: ps) from rfl,
      if_neg hx, ih hr]

theorem splitOnChar_append_sep {c : Char} :
    ∀ {p : JStr} (r : JStr), c ∉ p →
      splitOnChar c (p ++ c :: r) = p :: splitOnChar c r := by
  intro p
  induction p with
  | nil =>
    intro r _
    show splitOnChar c (c :: r) = [] :: splitOnChar c r
    rw [show splitOnChar c (c :: r) =
        (if c = c then [] :: splitOnChar c r
         else match splitOnChar c r with
           | [] => [[c]]
           | p :: ps => (c :: p) :: ps) from rfl,
      if_pos rfl]
  | cons x p2 ih =>
    intro r h
    have hx : ¬ x = c := fun hc => h (hc ▸ List.mem_cons_self x p2)
    have hp : c ∉ p2 := fun hc => h (List.mem_cons_of_mem _ hc)
    show splitOnChar c (x :: (p2 ++ c :: r)) = (x :: p2) :: splitOnChar c r
    rw [show splitOnChar c (x :: (p2 ++ c :: r)) =
        (if x = c then [] :: splitOnChar c (p2 ++ c :: r)
         else match splitOnChar c (p2 ++ c :: r) with
           | [] => [[x]]
           | p :: ps => (x :: p) :: ps) from rfl,
      if_neg hx, ih r hp]

theorem joinSep_cons_cons (s p q : JStr) (rest : List JStr) :
    joinSep s (p :: q :: rest) = p ++ s ++ joinSep s (q :: rest) := rfl

theorem splitOnChar_joinSep {c : Char} :
    ∀ (parts : List JStr), parts ≠ [] → (∀ p ∈ parts, c ∉ p) →
      splitOnChar c (joinSep [c] parts) = parts := by
  intro parts
  induction parts with
  | nil => intro h _; exact absurd rfl h
  | cons p rest ih =>
    intro _ hcl
    cases rest with
    | nil =>
      show splitOnChar c p = [p]
      exact splitOnChar_no_sep (hcl p (List.mem_cons_self _ _))
    | cons q rest2 =>
      rw [joinSep_cons_cons,
        show p ++ [c] ++ joinSep [c] (q :: rest2) = p ++ c :: joinSep [c] (q :: rest2) from by
          simp,
        splitOnChar_append_sep _ (hcl p (List.mem_cons_self _ _)),
        ih (by simp) fun x hx => hcl x (List.mem_cons_of_mem _ hx)]

theorem mem_joinSep {x : Char} {sep : JStr} :
    ∀ {parts : List JStr}, x ∈ joinSep sep parts → x ∈ sep ∨ ∃ p ∈ parts, x ∈ p := by
  intro parts
  induction parts with
  | nil => intro h; cases h
  | cons p rest ih =>
    intro h
    cases rest with
    | nil => exact Or.inr ⟨p, List.mem_cons_self _ _, h⟩
    | cons q rest2 =>
      rw [joinSep_cons_cons, List.append_assoc, List.mem_append] at h
      rcases h with h | h
      · exact Or.inr ⟨p, List.mem_cons_self _ _, h⟩
      · rw [List.mem_append] at h
        rcases h with h | h
        · exact Or.inl h
        · rcases ih h with h | ⟨p2, hp2, hx⟩
          · exact Or.inl h
          · exact Or.inr ⟨p2, List.mem_cons_of_mem _ hp2, hx⟩

theorem mem_joinSep_of_mem {x : Char} {sep : JStr} {p : JStr} :
    ∀ {parts : List JStr}, p ∈ parts → x ∈ p → x ∈ joinSep sep parts := by
  intro parts
  induction parts with
  | nil => intro h _; cases h
  | cons a rest ih =>
    intro hp hx
    cases rest with
    | nil =>
      rcases List.mem_cons.mp hp with rfl | h
      · exact hx
      · cases h
    | cons q rest2 =>
      rw [joinSep_cons_cons, List.append_assoc, List.mem_append]
      rcases List.mem_cons.mp hp with rfl | h
      · exact Or.inl hx
      · exact Or.inr (List.mem_append.mpr (Or.inr (ih h hx)))

theorem stripCR_eq_self {p : JStr} (h : '\r' ∉ p) : stripCR p = p := by
  unfold stripCR
  rw [if_neg]
  intro hc
  exact h (List.mem_of_getLast?_eq_some hc)

theorem stripCR_concat (p : JStr) : stripCR (p ++ ['\r']) = p := by
  unfold stripCR
  rw [List.getLast?_concat, if_pos rfl, List.dropLast_concat]

theorem splitLinesJS_joinSep :
    ∀ (parts : List JStr), parts ≠ [] → (∀ p ∈ parts, '\n' ∉ p ∧ '\r' ∉ p) →
      splitLinesJS (joinSep (js "\r\n") parts) = parts := by
  intro parts
  induction parts with
  | nil => intro h _; exact absurd rfl h
  | cons p rest ih =>
    intro _ hcl
    cases rest with
    | nil =>
      show (splitOnChar '\n' p).map stripCR = [p]
      rw [splitOnChar_no_sep (hcl p (List.mem_cons_self _ _)).1, List.map_cons, List.map_nil,
        stripCR_eq_self (hcl p (List.mem_cons_self _ _)).2]
    | cons q rest2 =>
      show (splitOnChar '\n' (joinSep (js "\r\n") (p :: q :: rest2))).map stripCR = _
      rw [joinSep_cons_cons,
        show p ++ js "\r\n" ++ joinSep (js "\r\n") (q :: rest2) =
          (p ++ ['\r']) ++ '\n' :: joinSep (js "\r\n") (q :: rest2) from by simp [js],
        splitOnChar_append_sep _ (by
          rw [List.mem_append]
          rintro (h | h)
          · exact (hcl p (List.mem_cons_self _ _)).1 h
          · simp at h),
        List.map_cons, stripCR_concat]
      have htail := ih (by simp) fun x hx => hcl x (List.mem_cons_of_mem _ hx)
      rw [show (splitOnChar '\n' (joinSep (js "\r\n") (q :: rest2))).map stripCR =
          splitLinesJS (joinSep (js "\r\n") (q :: rest2)) from rfl, htail]

theorem dropWhile_eq_self_of_all {p : Char → Bool} :
    ∀ {v : JStr}, (∀ c ∈ v, p c = false) → v.dropWhile p = v := by
  intro v
  cases v with
  | nil => intro _; rfl
  | cons c r =>
    intro h
    rw [List.dropWhile_cons, h c (List.mem_cons_self _ _)]
    simp

theorem trim_eq_self_of_noWS {v : JStr} (h : ∀ c ∈ v, c.isWhitespace = false) :
    trim v = v := by
  unfold trim
  rw [dropWhile_eq_self_of_all h,
    dropWhile_eq_self_of_all fun c hc => h c (List.mem_reverse.mp hc),
    List.reverse_reverse]

theorem trim_ne_nil_of_mem {x : Char} {l : JStr} (hx : x ∈ l)
    (hw : x.isWhitespace = false) : trim l ≠ [] := by
  intro hc
  unfold trim at hc
  rw [List.reverse_eq_nil_iff, List.dropWhile_eq_nil_iff] at hc
  have hx2 : x ∈ l.dropWhile Char.isWhitespace := by
    have hsplit := List.takeWhile_append_dropWhile (p := Char.isWhitespace) (l := l)
    rw [← hsplit, List.mem_append] at hx
    rcases hx with hx | hx
    · exact absurd (List.mem_takeWhile_imp hx) (by rw [hw]; intro h; cases h)
    · exact hx
  exact absurd (hc x (List.mem_reverse.mpr hx2)) (by rw [hw]; intro h; cases h)

theorem mem_stripPipes {x : Char} {v : JStr} (h : x ∈ stripPipes v) :
    x ∈ v ∧ x ≠ '|' := by
  unfold stripPipes at h
  rw [List.mem_filter] at h
  exact ⟨h.1, by simpa using h.2⟩

theorem stripPipes_eq_self {v : JStr} (h : ∀ c ∈ v, c ≠ '|') : stripPipes v = v := by
  unfold stripPipes
  rw [List.filter_eq_self]
  intro c hc
  simpa using h c hc

theorem mem_replaceFirst {x a b : Char} :
    ∀ {l : JStr}, x ∈ replaceFirst a b l → x = b ∨ x ∈ l := by
  intro l
  induction l with
  | nil => intro h; cases h
  | cons c r ih =>
    intro h
    rw [show replaceFirst a b (c :: r) =
        (if c = a then b :: r else c :: replaceFirst a b r) from rfl] at h
    by_cases hc : c = a
    · rw [if_pos hc] at h
      rcases List.mem_cons.mp h with rfl | h
      · exact Or.inl rfl
      · exact Or.inr (List.mem_cons_of_mem _ h)
    · rw [if_neg hc] at h
      rcases List.mem_cons.mp h with rfl | h
      · exact Or.inr (List.mem_cons_self _ _)
      · rcases ih h with h | h
        · exact Or.inl h
        · exact Or.inr (List.mem_cons_of_mem _ h)

theorem replaceFirst_invol {v : JStr} (h : ',' ∉ v) :
    replaceFirst ',' '.' (replaceFirst '.' ',' v) = v := by
  induction v with
  | nil => rfl
  | cons c r ih =>
    have hc : ¬ c = ',' := fun hcc => h (hcc ▸ List.mem_cons_self c r)
    have hr : ',' ∉ r := fun hcc => h (List.mem_cons_of_mem _ hcc)
    by_cases hdot : c = '.'
    · rw [show replaceFirst '.' ',' (c :: r) = (if c = '.' then ',' :: r
          else c :: replaceFirst '.' ',' r) from rfl,
        if_pos hdot,
        show replaceFirst ',' '.' (',' :: r) = (if ',' = ',' then '.' :: r
          else ',' :: replaceFirst ',' '.' r) from rfl,
        if_pos rfl, hdot]
    · rw [show replaceFirst '.' ',' (c :: r) = (if c = '.' then ',' :: r
          else c :: replaceFirst '.' ',' r) from rfl,
        if_neg hdot,
        show replaceFirst ',' '.' (c :: replaceFirst '.' ',' r) =
          (if c = ',' then '.' :: replaceFirst '.' ',' r
           else c :: replaceFirst ',' '.' (replaceFirst '.' ',' r)) from rfl,
        if_neg hc, ih hr]

theorem canonicalAmount_spec {v : JStr} (h : canonicalAmount v = true) :
    ∃ q, jsParseFloat v = some q ∧ JNum.toFixed2 q = v := by
  unfold canonicalAmount at h
  cases hp : jsParseFloat v with
  | none => rw [hp] at h; cases h
  | some q =>
    rw [hp] at h
    exact ⟨q, rfl, by simpa using h⟩

theorem cleanStr_spec {v : JStr} (h : cleanStr v = true) :
    ∀ c ∈ v, c ≠ '|' ∧ c ≠ '\n' ∧ c ≠ '\r' := by
  unfold cleanStr at h
  rw [List.all_eq_true] at h
  intro c hc
  have := h c hc
  simp only [Bool.and_eq_true, bne_iff_ne] at this
  exact ⟨this.1.1, this.1.2, this.2⟩

theorem noWS_spec {v : JStr} (h : noWS v = true) :
    ∀ c ∈ v, c.isWhitespace = false := by
  unfold noWS at h
  rw [List.all_eq_true] at h
  intro c hc
  simpa using h c hc

/-! ## Claim C1 — per-field serialization lemmas -/

theorem serializeField_eq_nonamount {e : Entry} {f : Field}
    (ha : isAmountField f = false) (hcl : cleanStr (e.get f) = true) :
    serializeField e f = e.get f := by
  unfold serializeField
  dsimp only
  rw [ha, if_neg Bool.false_ne_true]
  exact stripPipes_eq_self fun c hc => (cleanStr_spec hcl c hc).1

theorem serializeField_eq_amount {e : Entry} {f : Field}
    (ha : isAmountField f = true) (hcl : cleanStr (e.get f) = true)
    (hcan : canonicalAmount (e.get f) = true) :
    serializeField e f = replaceFirst '.' ',' (e.get f) := by
  obtain ⟨q, hq, hfx⟩ := canonicalAmount_spec hcan
  have hnil : e.get f ≠ [] := by
    intro hc
    rw [hc, show jsParseFloat ([] : JStr) = none from rfl] at hq
    cases hq
  unfold serializeField
  dsimp only
  rw [ha, if_pos rfl]
  unfold jsOr
  rw [if_neg hnil, hq, show jsToFixed2 (some q) = JNum.toFixed2 q from rfl, hfx]
  exact stripPipes_eq_self fun c hc => by
    rcases mem_replaceFirst hc with rfl | hcv
    · decide
    · exact (cleanStr_spec hcl c hcv).1

theorem convVal_replaceFirst_amount {v : JStr}
    (hnws : noWS v = true) (hnc : ',' ∉ v) {f : Field} (ha : isAmountField f = true) :
    convVal f (replaceFirst '.' ',' v) = v := by
  have htr : trim (replaceFirst '.' ',' v) = replaceFirst '.' ',' v :=
    trim_eq_self_of_noWS fun c hc => by
      rcases mem_replaceFirst hc with rfl | hcv
      · decide
      · exact noWS_spec hnws c hcv
  unfold convVal
  dsimp only
  rw [htr, ha, if_pos rfl]
  exact replaceFirst_invol hnc

theorem convVal_id_nonamount {v : JStr} (htrim : trim v = v) {f : Field}
    (ha : isAmountField f = false) :
    convVal f v = v := by
  unfold convVal
  dsimp only
  rw [htrim, ha, if_neg Bool.false_ne_true]

/-- Each field survives the serialize-then-parse conversion. -/
theorem convVal_roundtrip {e : Entry} {f : Field} (hf : f ∈ FEC_FIELDS)
    (hwf : WellFormedEntry e) :
    convVal f (serializeField e f) = e.get f := by
  obtain ⟨hcl, hcase⟩ := hwf f hf
  rcases hcase with ⟨ha, hnws, hnc, hcan⟩ | ⟨ha, htrim⟩
  · rw [serializeField_eq_amount ha hcl hcan]
    exact convVal_replaceFirst_amount hnws hnc ha
  · rw [serializeField_eq_nonamount ha hcl]
    exact convVal_id_nonamount htrim ha

/-- Serialized fields carry no delimiter and no line break. -/
theorem serializeField_clean {e : Entry} {f : Field} (hf : f ∈ FEC_FIELDS)
    (hwf : WellFormedEntry e) :
    ∀ x ∈ serializeField e f, x ≠ '|' ∧ x ≠ '\n' ∧ x ≠ '\r' := by
  obtain ⟨hcl, hcase⟩ := hwf f hf
  rcases hcase with ⟨ha, hnws, hnc, hcan⟩ | ⟨ha, htrim⟩
  · rw [serializeField_eq_amount ha hcl hcan]
    intro x hx
    rcases mem_replaceFirst hx with rfl | hxv
    · exact ⟨by decide, by decide, by decide⟩
    · exact cleanStr_spec hcl x hxv
  · rw [serializeField_eq_nonamount ha hcl]
    exact cleanStr_spec hcl

set_option maxHeartbeats 2000000 in
/-- Rebuilding an entry from its serialized fields recovers it. -/
theorem entryFromValues_serialize {e : Entry} (hwf : WellFormedEntry e) :
    entryFromValues (FEC_FIELDS.map (serializeField e)) = e := by
  have h : ∀ f ∈ FEC_FIELDS, convVal f (serializeField e f) = e.get f :=
    fun f hf => convVal_roundtrip hf hwf
  have hv : FEC_FIELDS.map (serializeField e) =
      [serializeField e .JournalCode, serializeField e .JournalLib,
       serializeField e .EcritureNum, serializeField e .EcritureDate,
       serializeField e .CompteNum, serializeField e .CompteLib,
       serializeField e .CompAuxNum, serializeField e .CompAuxLib,
       serializeField e .PieceRef, serializeField e .PieceDate,
       serializeField e .EcritureLib, serializeField e .Debit,
       serializeField e .Credit, serializeField e .EcritureLet,
       serializeField e .DateLet, serializeField e .ValidDate,
       serializeField e .Montantdevise, serializeField e .Idevise] := rfl
  rw [hv]
  apply Entry.ext
  · exact h .JournalCode (by decide)
  · exact h .JournalLib (by decide)
  · exact h .EcritureNum (by decide)
  · exact h .EcritureDate (by decide)
  · exact h .CompteNum (by decide)
  · exact h .CompteLib (by decide)
  · exact h .CompAuxNum (by decide)
  · exact h .CompAuxLib (by decide)
  · exact h .PieceRef (by decide)
  · exact h .PieceDate (by decide)
  · exact h .EcritureLib (by decide)
  · exact h .Debit (by decide)
  · exact h .Credit (by decide)
  · exact h .EcritureLet (by decide)
  · exact h .DateLet (by decide)
  · exact h .ValidDate (by decide)
  · exact h .Montantdevise (by decide)
  · exact h .Idevise (by decide)

/-- A serialized data line splits back into the 18 serialized fields. -/
theorem fecLine_splits {e : Entry} (hwf : WellFormedEntry e) :
    splitOnChar '|' (fecLine e) = FEC_FIELDS.map (serializeField e) := by
  apply splitOnChar_joinSep
  · simp [FEC_FIELDS]
  · intro p hp
    rw [List.mem_map] at hp
    obtain ⟨f, hf, rfl⟩ := hp
    intro hc
    exact (serializeField_clean hf hwf '|' hc).1 rfl

/-- A serialized data line contains no line break. -/
theorem fecLine_clean {e : Entry} (hwf : WellFormedEntry e) :
    '\n' ∉ fecLine e ∧ '\r' ∉ fecLine e := by
  constructor
  · intro hc
    rcases mem_joinSep hc with h | ⟨p, hp, hx⟩
    · simp at h
    · rw [List.mem_map] at hp
      obtain ⟨f, hf, rfl⟩ := hp
      exact (serializeField_clean hf hwf _ hx).2.1 rfl
  · intro hc
    rcases mem_joinSep hc with h | ⟨p, hp, hx⟩
    · simp at h
    · rw [List.mem_map] at hp
      obtain ⟨f, hf, rfl⟩ := hp
      exact (serializeField_clean hf hwf _ hx).2.2 rfl

/-- A serialized data line always contains the delimiter. -/
theorem pipe_mem_fecLine (e : Entry) : '|' ∈ fecLine e := by
  show '|' ∈ joinSep ['|'] (FEC_FIELDS.map (serializeField e))
  rw [show FEC_FIELDS.map (serializeField e) =
      serializeField e .JournalCode :: serializeField e .JournalLib ::
        (List.map (serializeField e) [.EcritureNum, .EcritureDate, .CompteNum, .CompteLib,
          .CompAuxNum, .CompAuxLib, .PieceRef, .PieceDate, .EcritureLib, .Debit, .Credit,
          .EcritureLet, .DateLet, .ValidDate, .Montantdevise, .Idevise]) from rfl,
    joinSep_cons_cons]
  exact List.mem_append.mpr (Or.inl (List.mem_append.mpr (Or.inr (List.mem_singleton.mpr rfl))))

/-- The data lines of well-formed entries all parse back, in order. -/
theorem filterMap_parse_fecLines :
    ∀ (l : List Entry), (∀ e ∈ l, WellFormedEntry e) →
      ((l.map fecLine).filterMap fun ln =>
        if (splitOnChar '|' ln).length = FEC_FIELDS.length then
          some (entryFromValues (splitOnChar '|' ln))
        else none) = l := by
  intro l
  induction l with
  | nil => intro _; rfl
  | cons e t ih =>
    intro hwf
    have hwe := hwf e (List.mem_cons_self _ _)
    have hcond : (splitOnChar '|' (fecLine e)).length = FEC_FIELDS.length := by
      rw [fecLine_splits hwe, List.length_map]
    have hfe : (if (splitOnChar '|' (fecLine e)).length = FEC_FIELDS.length then
        some (entryFromValues (splitOnChar '|' (fecLine e))) else none) = some e := by
      rw [if_pos hcond, fecLine_splits hwe, entryFromValues_serialize hwe]
    rw [List.map_cons, List.filterMap_cons]
    rw [hfe]
    exact congrArg (List.cons e) (ih fun x hx => hwf x (List.mem_cons_of_mem _ hx))

/-- C1: serializing a non-empty ledger of well-formed entries and parsing
the result returns the ledger unchanged, field by field (the decimal
comma/dot conversion being applied symmetrically on the three monetary
fields). -/
theorem parse_generate_roundtrip (entries : List Entry) (hne : entries ≠ [])
    (hwf : ∀ e ∈ entries, WellFormedEntry e) :
    ∃ content, generateFECFile entries = .ok content ∧
      parseFECFile content = .ok entries := by
  refine ⟨joinSep (js "\r\n") (fecHeader :: entries.map fecLine),
    by unfold generateFECFile; rw [if_neg hne], ?_⟩
  have hsplit : splitLinesJS (joinSep (js "\r\n") (fecHeader :: entries.map fecLine)) =
      fecHeader :: entries.map fecLine := by
    apply splitLinesJS_joinSep _ (by simp)
    intro p hp
    rcases List.mem_cons.mp hp with rfl | hp
    · exact ⟨by decide, by decide⟩
    · rw [List.mem_map] at hp
      obtain ⟨e, he, rfl⟩ := hp
      exact fecLine_clean (hwf e he)
  have hfl : fecLines (joinSep (js "\r\n") (fecHeader :: entries.map fecLine)) =
      fecHeader :: entries.map fecLine := by
    unfold fecLines
    rw [hsplit, List.filter_eq_self]
    intro a ha
    rcases List.mem_cons.mp ha with rfl | ha
    · decide
    · rw [List.mem_map] at ha
      obtain ⟨e, he, rfl⟩ := ha
      rw [decide_eq_true_eq]
      exact trim_ne_nil_of_mem (pipe_mem_fecLine e) (by decide)
  have htrimc : trim (joinSep (js "\r\n") (fecHeader :: entries.map fecLine)) ≠ [] := by
    apply trim_ne_nil_of_mem (mem_joinSep_of_mem (List.mem_cons_self _ _)
      (show '|' ∈ fecHeader from by decide))
    decide
  unfold parseFECFile
  rw [if_neg htrimc]
  rw [hfl,
    if_neg (by
      rw [List.length_cons, List.length_map]
      have := List.length_pos.mpr hne
      omega),
    show (fecHeader :: entries.map fecLine).headD [] = fecHeader from rfl,
    if_neg (show ¬ (splitOnChar '|' fecHeader).length ≠ FEC_FIELDS.length from by decide),
    show (fecHeader :: entries.map fecLine).drop 1 = entries.map fecLine from rfl,
    filterMap_parse_fecLines entries hwf]

/-- C1 (witness): the two-entry ledger `[creditEntry, debitEntry]` is
well-formed and round-trips through serialize and parse. -/
theorem parse_generate_roundtrip_witness :
    ∃ content, generateFECFile [creditEntry, debitEntry] = .ok content ∧
      parseFECFile content = .ok [creditEntry, debitEntry] :=
  parse_generate_roundtrip [creditEntry, debitEntry] (by decide) (by decide)

end FEC

-- sanity checks (concrete evaluations)
example : FEC.jsParseFloat (FEC.js "1234.56") = some ⟨123456, 2⟩ := by decide
example : FEC.jsParseFloat (FEC.js "-5.00") = some ⟨-500, 2⟩ := by decide
example : FEC.jsParseFloat (FEC.js "abc") = none := by decide
example : FEC.jsParseFloat (FEC.js " 12,5") = some ⟨12, 0⟩ := by decide
example : FEC.jsParseFloat (FEC.js "1e-2") = some ⟨1, 2⟩ := by decide
example : FEC.JNum.toFixed2 ⟨123456, 2⟩ = FEC.js "1234.56" := by decide
example : FEC.JNum.toFixed2 ⟨0, 0⟩ = FEC.js "0.00" := by decide
example : FEC.JNum.toFixed2 ⟨-500, 2⟩ = FEC.js "-5.00" := by decide
example : FEC.jsToFixed2 none = FEC.js "NaN" := by decide
example : FEC.JNum.toStr ⟨-500, 2⟩ = FEC.js "-5" := by decide
example : FEC.splitOnChar '|' (FEC.js "a|b||c") = [FEC.js "a", FEC.js "b", [], FEC.js "c"] := by decide
example : FEC.trim (FEC.js "  ab ") = FEC.js "ab" := by decide
example : FEC.splitLinesJS (FEC.js "a\r\nb\nc") = [FEC.js "a", FEC.js "b", FEC.js "c"] := by decide

section Checks

open FEC

example : validateEntry creditEntry = [] := by decide

example :
    fecLine creditEntry =
      js "VE|Ventes|1|20240115|707000|Ventes|||F001|20240115|Vente marchandise|0,00|1000,00|||20240116|0,00|" := by
  decide

example :
    parseFECFile (js "h|h|h|h|h|h|h|h|h|h|h|h|h|h|h|h|h|h\r\nVE|Ventes|1|20240115|707000|Ventes|||F001|20240115|Vente marchandise|0,00|1000,00|||20240116|0,00|") =
      .ok [creditEntry] := by decide

example : (validateFECCompliance [creditEntry]).valid = false := by decide

example :
    (validateFECCompliance [creditEntry]).errors =
      [⟨js "BALANCE_ERROR", js "Pièce F001 déséquilibrée: Débit 0.00 ≠ Crédit 1000.00", some (js "F001")⟩] := by
  decide

example : (validateFECCompliance [creditEntry]).warnings = [] := by decide

example : parseFECFile (js "   ") = .error (js "Fichier FEC vide") := by decide

example : generateFECFile ([] : List Entry) = .error (js "Aucune écriture à exporter") := by decide

end Checks
